import Mathlib

/-
Verification of the stromboli media server (src/main.go): the format
classifier, the media prober, and the stream-handler process lifecycle
(mutual exclusion slot, kill-and-replace, streaming race, cleanup).

Shallow embedding notes:
- needsTranscoding models the Go function of the same name; the result of
  the external ffprobe invocation (cmd.Output) is passed in as an
  Option String, none meaning the invocation returned an error.
- classify models the decision computed in handleBrowse lines 534-547
  joined with the frontend dispatch (playVideo uses the video endpoint
  when canPlay, the stream endpoint when isVideo and not canPlay, and no
  click handler otherwise).
- The stream handler and its two goroutines are modelled as a small-step
  interleaving machine further below.
-/

/-- Whitespace predicate modelling unicode.IsSpace as used by
strings.TrimSpace in needsTranscoding; covers the Latin-1 space
characters (the codec names compared against are plain ASCII). -/
def goIsSpace (c : Char) : Bool :=
  c = ' ' || c = '\t' || c = '\n' || c = '\x0b' || c = '\x0c' || c = '\r'
    || c = '\u0085' || c = ' '

/-- Model of strings.TrimSpace: drop leading and trailing whitespace. -/
def trimSpace (s : String) : String :=
  ⟨((s.toList.dropWhile goIsSpace).reverse.dropWhile goIsSpace).reverse⟩

/-- Model of strings.ToLower restricted to the ASCII range used by the
extension allow-lists. -/
def goToLower (s : String) : String :=
  ⟨s.toList.map Char.toLower⟩

/-- Model of filepath.Ext on a base file name: the suffix starting at the
final dot, or the empty string when the name has no dot. -/
def goExt (name : String) : String :=
  if '.' ∈ name.toList then
    ⟨'.' :: ((name.toList.reverse.takeWhile (fun c => c ≠ '.')).reverse)⟩
  else ""

/-- The compatibleAudio map literal in needsTranscoding (main.go 496-501). -/
def compatibleAudio (codec : String) : Bool :=
  codec = "aac" || codec = "mp3" || codec = "opus" || codec = "vorbis"

/-- Model of needsTranscoding (main.go 477-504). The argument is the
result of the ffprobe invocation: none when cmd.Output returned an error,
some raw output otherwise. On error the function returns true; otherwise
it trims the output and returns the negation of the compatibility check. -/
def needsTranscoding (probeOut : Option String) : Bool :=
  match probeOut with
  | none => true
  | some out => !(compatibleAudio (trimSpace out))

/-- The nativeFormats map literal (main.go 33-37). -/
def nativeFormats (ext : String) : Bool :=
  ext = ".mp4" || ext = ".webm" || ext = ".ogg"

/-- The videoFormats map literal (main.go 40-53). -/
def videoFormats (ext : String) : Bool :=
  ext = ".mp4" || ext = ".webm" || ext = ".ogg" || ext = ".mkv"
    || ext = ".avi" || ext = ".mov" || ext = ".wmv" || ext = ".flv"
    || ext = ".m4v" || ext = ".mpg" || ext = ".mpeg" || ext = ".3gp"

/-- The play strategies distinguished by the spec: direct serve, convert
then stream, or not a media file. -/
inductive PlayDecision
| Direct
| Convert
| Unsupported
deriving DecidableEq

/-- The handleBrowse classification (main.go 534-547) joined with the
frontend dispatch, expressed over an already lowercased extension:
isVideo and canPlay come from the format maps, the prober is consulted
exactly when canPlay, isVideo and the entry is not a directory, and a
needs-transcode result forces canPlay to false. -/
def classifyExt (ext : String) (isDir : Bool) (probeOut : Option String) :
    PlayDecision :=
  let isVideo := videoFormats ext
  let canPlay := nativeFormats ext
  let consult := canPlay && isVideo && !isDir
  let canPlay2 := if consult && needsTranscoding probeOut then false else canPlay
  if !isVideo then .Unsupported
  else if canPlay2 then .Direct
  else .Convert

/-- Classification of a directory entry by name, as in handleBrowse:
the extension is extracted with filepath.Ext and lowercased. -/
def classify (name : String) (isDir : Bool) (probeOut : Option String) :
    PlayDecision :=
  classifyExt (goToLower (goExt name)) isDir probeOut

/-- Condition under which handleBrowse invokes needsTranscoding for an
entry (main.go 542): canPlay, isVideo and not a directory. -/
def probeConsulted (name : String) (isDir : Bool) : Bool :=
  nativeFormats (goToLower (goExt name)) && videoFormats (goToLower (goExt name))
    && !isDir

/-
Small-step interleaving machine for handleStream (main.go 577-708) and
its two goroutines. Each concurrent stream request is a handler indexed
by Fin n. The shared state holds the transcodeMutex (its holder, none
when free) and activeCmd (the handler whose constructed command is
recorded in the slot, none when empty). Per-handler state tracks the
program counter of the handler body, the state of the spawned ffmpeg
process, the stderr-draining goroutine, the stdout-to-response copy
goroutine, the HTTP error response sent (if any), and the bookkeeping
flags used by the claims (killed, reaped, bytes written, error logged).

The environment of each request (result of the path containment check,
of os.Stat, of the pipe attachments, of cmd.Start, whether the client
context gets cancelled, whether the process exits with nonzero status
on its own, whether the copy moved any bytes) is a per-handler
configuration fixed up front; the only nondeterminism is the scheduling
of steps, including the natural exit of a running process and the
select rendezvous on the unbuffered done channel.
-/

/-- Program counter positions of the handleStream body, in source order:
path containment check (582), existence check (588), first lock
acquisition (594), the kill-and-wait of a tracked command (595-600),
first unlock (601), command construction (608), second lock acquisition
(630), recording activeCmd (631), second unlock (632), stderr pipe
attachment (635), stdout pipe attachment (643), cmd.Start (651), the
select race (683-692), cleanup lock (695), conditional slot clear
(696-698), cleanup unlock (699), cmd.Wait with conditional logging
(702-707), and the end of the handler. -/
inductive PC
| pcPath
| pcStat
| pcLock1
| pcKill
| pcUnlock1
| pcMk
| pcLock2
| pcRecord
| pcUnlock2
| pcStderr
| pcStdout
| pcStart
| pcRace
| pcLockC
| pcClear
| pcUnlockC
| pcWait
| pcDone
deriving DecidableEq

/-- Lifecycle of the ffmpeg process of one handler: not started
(cmd.Process is nil), running, or exited (normally or killed). -/
inductive ProcState
| notStarted
| running
| exited
deriving DecidableEq

/-- State of the stdout-to-response copy goroutine (main.go 673-680):
not spawned, copying, finished copying and blocked sending true on the
unbuffered done channel, or past the send. -/
inductive CopyState
| cIdle
| cRun
| cSend
| cFin
deriving DecidableEq

/-- State of the stderr-draining goroutine (main.go 658-669): not
spawned, reading, or terminated after a read error. -/
inductive ErrState
| eIdle
| eRun
| eFin
deriving DecidableEq

/-- Per-handler mutable state. -/
structure HState where
  pc : PC
  proc : ProcState
  killed : Bool
  reaped : Bool
  copyT : CopyState
  errT : ErrState
  resp : Option Nat
  bytes : Bool
  logged : Bool
deriving DecidableEq

/-- Fixed environment of one stream request. fname is the requested
path; the handler body never inspects it beyond the two checks whose
results pathOk and fileExists record. -/
structure HandlerCfg where
  fname : String
  pathOk : Bool
  fileExists : Bool
  stderrPipeOk : Bool
  stdoutPipeOk : Bool
  startOk : Bool
  ctxCancelled : Bool
  exitNonzero : Bool
  copyWritesBytes : Bool

/-- Global state: per-handler states plus the shared transcodeMutex
holder and the activeCmd slot (main.go 18-21). -/
structure Sys (n : Nat) where
  hs : Fin n → HState
  activeCmd : Option (Fin n)
  transcodeMutex : Option (Fin n)

/-- Replace the state of one handler. -/
def setH {n : Nat} (s : Sys n) (h : Fin n) (v : HState) : Sys n :=
  { s with hs := fun i => if i = h then v else s.hs i }

/-- Replace the activeCmd slot. -/
def setSlot {n : Nat} (s : Sys n) (v : Option (Fin n)) : Sys n :=
  { s with activeCmd := v }

/-- Replace the transcodeMutex holder. -/
def setMux {n : Nat} (s : Sys n) (v : Option (Fin n)) : Sys n :=
  { s with transcodeMutex := v }

/-- Initial per-handler state: at the top of the handler, nothing
spawned, nothing reported. -/
def hInit : HState :=
  { pc := .pcPath
    proc := .notStarted
    killed := false
    reaped := false
    copyT := .cIdle
    errT := .eIdle
    resp := none
    bytes := false
    logged := false }

/-- Initial system state: slot empty, mutex free. -/
def sysInit (n : Nat) : Sys n :=
  { hs := fun _ => hInit, activeCmd := none, transcodeMutex := none }

/-- Schedulable events: one step of a handler body, the two select
outcomes at the race point, completion of the copy, termination of the
stderr drainer, and natural exit of a running process. -/
inductive Act (n : Nat)
| go (h : Fin n)
| raceRecv (h : Fin n)
| raceCancel (h : Fin n)
| copyFinish (h : Fin n)
| errFinish (h : Fin n)
| procExit (h : Fin n)

/-- One step of the machine; none when the event is not enabled in the
given state. Each branch is a direct transcription of the corresponding
lines of handleStream and its goroutines. -/
def step {n : Nat} (cfg : Fin n → HandlerCfg) (s : Sys n) :
    Act n → Option (Sys n)
| .go h =>
  let st := s.hs h
  match st.pc with
  | .pcPath =>
      if (cfg h).pathOk then some (setH s h { st with pc := .pcStat })
      else some (setH s h { st with pc := .pcDone, resp := some 400 })
  | .pcStat =>
      if (cfg h).fileExists then some (setH s h { st with pc := .pcLock1 })
      else some (setH s h { st with pc := .pcDone, resp := some 404 })
  | .pcLock1 =>
      match s.transcodeMutex with
      | none => some (setMux (setH s h { st with pc := .pcKill }) (some h))
      | some _ => none
  | .pcKill =>
      match s.activeCmd with
      | none => some (setH s h { st with pc := .pcUnlock1 })
      | some j =>
          let vj := s.hs j
          if vj.proc = .notStarted then
            some (setH s h { st with pc := .pcUnlock1 })
          else
            let s1 := setH s j
              { vj with
                proc := .exited
                killed := vj.killed || (vj.proc == .running)
                reaped := true }
            some (setSlot (setH s1 h { s1.hs h with pc := .pcUnlock1 }) none)
  | .pcUnlock1 =>
      some (setMux (setH s h { st with pc := .pcMk }) none)
  | .pcMk =>
      some (setH s h { st with pc := .pcLock2 })
  | .pcLock2 =>
      match s.transcodeMutex with
      | none => some (setMux (setH s h { st with pc := .pcRecord }) (some h))
      | some _ => none
  | .pcRecord =>
      some (setSlot (setH s h { st with pc := .pcUnlock2 }) (some h))
  | .pcUnlock2 =>
      some (setMux (setH s h { st with pc := .pcStderr }) none)
  | .pcStderr =>
      if (cfg h).stderrPipeOk then some (setH s h { st with pc := .pcStdout })
      else some (setH s h { st with pc := .pcDone, resp := some 500 })
  | .pcStdout =>
      if (cfg h).stdoutPipeOk then some (setH s h { st with pc := .pcStart })
      else some (setH s h { st with pc := .pcDone, resp := some 500 })
  | .pcStart =>
      if (cfg h).startOk then
        some (setH s h
          { st with
            pc := .pcRace
            proc := .running
            copyT := .cRun
            errT := .eRun })
      else some (setH s h { st with pc := .pcDone, resp := some 500 })
  | .pcRace => none
  | .pcLockC =>
      match s.transcodeMutex with
      | none => some (setMux (setH s h { st with pc := .pcClear }) (some h))
      | some _ => none
  | .pcClear =>
      if s.activeCmd = some h then
        some (setSlot (setH s h { st with pc := .pcUnlockC }) none)
      else some (setH s h { st with pc := .pcUnlockC })
  | .pcUnlockC =>
      some (setMux (setH s h { st with pc := .pcWait }) none)
  | .pcWait =>
      match st.proc with
      | .exited =>
          some (setH s h
            { st with
              pc := .pcDone
              reaped := true
              logged := ((cfg h).exitNonzero || st.killed || st.reaped)
                          && !(cfg h).ctxCancelled })
      | _ => none
  | .pcDone => none
| .raceRecv h =>
  let st := s.hs h
  if st.pc = .pcRace ∧ st.copyT = .cSend then
    some (setH s h { st with pc := .pcLockC, copyT := .cFin })
  else none
| .raceCancel h =>
  let st := s.hs h
  if st.pc = .pcRace ∧ (cfg h).ctxCancelled = true then
    match st.proc with
    | .running =>
        some (setH s h
          { st with
            pc := .pcLockC
            proc := .exited
            killed := true })
    | _ => some (setH s h { st with pc := .pcLockC })
  else none
| .copyFinish h =>
  let st := s.hs h
  if st.copyT = .cRun ∧ (st.proc = .exited ∨ (cfg h).ctxCancelled = true) then
    some (setH s h
      { st with
        copyT := .cSend
        bytes := (cfg h).copyWritesBytes })
  else none
| .errFinish h =>
  let st := s.hs h
  if st.errT = .eRun ∧ st.proc = .exited then
    some (setH s h { st with errT := .eFin })
  else none
| .procExit h =>
  let st := s.hs h
  if st.proc = .running then
    some (setH s h { st with proc := .exited })
  else none

/-- Total step: disabled events leave the state unchanged. -/
def stepD {n : Nat} (cfg : Fin n → HandlerCfg) (s : Sys n) (a : Act n) :
    Sys n :=
  (step cfg s a).getD s

/-- Execution of a schedule from a state. -/
def runD {n : Nat} (cfg : Fin n → HandlerCfg) (s : Sys n) :
    List (Act n) → Sys n
| [] => s
| a :: as => runD cfg (stepD cfg s a) as

/-- Number of conversion processes currently alive. -/
def aliveCount {n : Nat} (s : Sys n) : Nat :=
  (List.finRange n).countP fun h => (s.hs h).proc == .running

/-- Environment of a routine successful request: both checks pass, the
pipes attach, the process starts, the client stays connected, the
process exits cleanly, the copy moves bytes. -/
def cfgOk (name : String) : HandlerCfg :=
  { fname := name
    pathOk := true
    fileExists := true
    stderrPipeOk := true
    stdoutPipeOk := true
    startOk := true
    ctxCancelled := false
    exitNonzero := false
    copyWritesBytes := true }

/-- Two concurrent requests, both for existing files. -/
def cfgPair : Fin 2 → HandlerCfg :=
  fun h => if h = 0 then cfgOk "movie1.mkv" else cfgOk "movie2.avi"

/-- Schedule exhibiting the mutual-exclusion violation: request 0 passes
the kill-and-wait section and releases the mutex, request 1 then runs
its whole admission (its kill-check sees an empty slot) and starts its
process, and finally request 0 records and starts its own process. -/
def traceTwoAlive : List (Act 2) :=
  List.replicate 6 (Act.go 0) ++ List.replicate 12 (Act.go 1)
    ++ List.replicate 6 (Act.go 0)

/-- Single request whose stderr pipe attachment fails. -/
def cfgPipeFail : Fin 1 → HandlerCfg :=
  fun _ => { cfgOk "movie.mkv" with stderrPipeOk := false }

/-- The request runs alone to completion: both checks, the kill section,
the recording, then the failing pipe attachment. -/
def tracePipeFail : List (Act 1) :=
  List.replicate 10 (Act.go 0)

/-- Single request whose cmd.Start fails: both pipes attach, then the
start itself errors. -/
def cfgStartFail : Fin 1 → HandlerCfg :=
  fun _ => { cfgOk "movie.mkv" with startOk := false }

/-- The request runs alone to completion: both checks, the kill
section, the recording, both pipe attachments, then the failing
start. -/
def traceStartFail : List (Act 1) :=
  List.replicate 12 (Act.go 0)

/-- Single request whose process exits with a nonzero status on its own
while the client has also disconnected (context cancelled), with the
select resolving through the done channel. -/
def cfgExitCancel : Fin 1 → HandlerCfg :=
  fun _ => { cfgOk "movie.mkv" with ctxCancelled := true, exitNonzero := true }

/-- Admission and start, natural nonzero exit, copy completes, the
select receives from done, then cleanup and Wait. -/
def traceExitCancel : List (Act 1) :=
  List.replicate 12 (Act.go 0)
    ++ [Act.procExit 0, Act.copyFinish 0, Act.raceRecv 0]
    ++ List.replicate 4 (Act.go 0)

/-- Program counters before cmd.Start has been reached: no process, no
goroutines, no bytes yet. -/
def isPreStart : PC → Bool
| .pcRace | .pcLockC | .pcClear | .pcUnlockC | .pcWait | .pcDone => false
| _ => true

/-- Handler positions past the conditional clear of the slot: from there
on the slot can never refer to this handler again. -/
def lateSlot (st : HState) : Prop :=
  st.pc = .pcUnlockC ∨ st.pc = .pcWait ∨ (st.pc = .pcDone ∧ st.resp = none)

/-- Per-handler invariant of the stream handler machine. -/
structure OkH (cfg : HandlerCfg) (st : HState) : Prop where
  respImpliesEnd : ∀ v, st.resp = some v → st.pc = .pcDone
  reapedAtEnd : st.pc = .pcDone → st.resp = none → st.reaped = true
  noLogWhenCancelled : cfg.ctxCancelled = true → st.logged = false
  errImpliesFresh : ∀ v, st.resp = some v →
    st.bytes = false ∧ st.proc = .notStarted ∧ st.copyT = .cIdle ∧
      st.errT = .eIdle
  logWhenFailed : st.pc = .pcDone → st.resp = none → cfg.exitNonzero = true →
    cfg.ctxCancelled = false → st.logged = true
  freshBeforeStart : isPreStart st.pc = true →
    st.proc = .notStarted ∧ st.copyT = .cIdle ∧ st.errT = .eIdle ∧
      st.bytes = false

/-- Program counters a handler can be at while its command is recorded
in the slot: from the recording (main.go 631) up to the conditional
clear, or at its return (the early pipe and start failure paths return
without clearing). -/
def ownerPC : PC → Bool
| .pcUnlock2 | .pcStderr | .pcStdout | .pcStart | .pcRace | .pcLockC
| .pcClear | .pcDone => true
| _ => false

/-- Global invariant: per-handler invariants, the late-slot property,
the owner-position property, and the missing-file property (a request
whose os.Stat fails only ever sits at the two checks or at its 404
return, and never owns the slot or the mutex). -/
structure Master {n : Nat} (cfg : Fin n → HandlerCfg) (s : Sys n) : Prop where
  ok : ∀ h, OkH (cfg h) (s.hs h)
  late : ∀ h, lateSlot (s.hs h) → s.activeCmd ≠ some h
  owner : ∀ j, s.activeCmd = some j → ownerPC (s.hs j).pc = true
  missing : ∀ h, (cfg h).pathOk = true → (cfg h).fileExists = false →
    ((s.hs h).pc = .pcPath ∨ (s.hs h).pc = .pcStat ∨
      ((s.hs h).pc = .pcDone ∧ (s.hs h).resp = some 404)) ∧
    s.activeCmd ≠ some h ∧ s.transcodeMutex ≠ some h

/-- Environment and schedule of a single request that runs to normal
completion: admission, start, natural process exit, copy completion,
done rendezvous, cleanup, Wait. -/
def cfgSolo : Fin 1 → HandlerCfg := fun _ => cfgOk "movie.mkv"

def traceSolo : List (Act 1) :=
  List.replicate 12 (Act.go 0)
    ++ [Act.procExit 0, Act.copyFinish 0, Act.raceRecv 0]
    ++ List.replicate 4 (Act.go 0)

/-- Environment of a pair of requests where request 0 names a missing
file and request 1 is a normal conversion. -/
def cfgMissPair : Fin 2 → HandlerCfg :=
  fun h => if h = 0 then { cfgOk "ghost.mkv" with fileExists := false }
           else cfgOk "movie2.avi"

def traceMissPair : List (Act 2) :=
  List.replicate 12 (Act.go 1) ++ [Act.go 0, Act.go 0]

/-- Invariant of a single-request system in which at least one of the
pipe attachments or the process start fails: the handler never reaches
the streaming stage, being at the stdout attachment or at the start
implies the earlier attachments succeeded, and from the recording on
the slot holds the command of this request. -/
def C2Inv (cfg : Fin 1 → HandlerCfg) (s : Sys 1) : Prop :=
  ((s.hs 0).pc ≠ .pcRace ∧ (s.hs 0).pc ≠ .pcLockC ∧
   (s.hs 0).pc ≠ .pcClear ∧ (s.hs 0).pc ≠ .pcUnlockC ∧
   (s.hs 0).pc ≠ .pcWait) ∧
  ((s.hs 0).pc = .pcStdout → (cfg 0).stderrPipeOk = true) ∧
  ((s.hs 0).pc = .pcStart →
    (cfg 0).stderrPipeOk = true ∧ (cfg 0).stdoutPipeOk = true) ∧
  (((s.hs 0).pc = .pcUnlock2 ∨ (s.hs 0).pc = .pcStderr ∨
      (s.hs 0).pc = .pcStdout ∨ (s.hs 0).pc = .pcStart ∨
      (s.hs 0).pc = .pcDone) → s.activeCmd = some 0) ∧
  ((s.hs 0).pc = .pcDone → (s.hs 0).resp = some 500)

/-- Environment of a single conversion whose client disconnects while
the stream is running. -/
def cfgLeak : Fin 1 → HandlerCfg :=
  fun _ => { cfgOk "movie.mkv" with ctxCancelled := true }

/-- Admission and start, then the select takes the cancellation branch
and kills the process, the copy goroutine finishes its io.Copy and
blocks on the done send, the stderr goroutine terminates, and the
handler completes cleanup and Wait. -/
def traceLeak : List (Act 1) :=
  List.replicate 12 (Act.go 0)
    ++ [Act.raceCancel 0, Act.copyFinish 0, Act.errFinish 0]
    ++ List.replicate 4 (Act.go 0)

/-- Leaked-copy-goroutine invariant: the handler has returned, the copy
goroutine sits blocked on its send to the done channel, the stderr
goroutine has terminated, and the process has been reaped. -/
def LeakInv (s : Sys 1) : Prop :=
  (s.hs 0).pc = .pcDone ∧ (s.hs 0).copyT = .cSend ∧
  (s.hs 0).errT = .eFin ∧ (s.hs 0).reaped = true

/-- A state with one handler at the select race point, its process
running and its copy goroutine still copying. -/
def raceState : Sys 1 :=
  { hs := fun _ =>
      { pc := .pcRace
        proc := .running
        killed := false
        reaped := false
        copyT := .cRun
        errT := .eRun
        resp := none
        bytes := false
        logged := false }
    activeCmd := some 0
    transcodeMutex := none }

/-- Environment of a pair of requests where request 0 streams a plain
text file and request 1 is a normal media conversion. -/
def cfgTxtPair : Fin 2 → HandlerCfg :=
  fun h => if h = 0 then cfgOk "notes.txt" else cfgOk "movie2.avi"

def traceTxtPair : List (Act 2) :=
  List.replicate 12 (Act.go 1) ++ List.replicate 12 (Act.go 0)

/-- Claim C3: for every probe outcome, an invocation error (none) yields
needs-transcoding true, and the result is false exactly when the probe
succeeded and the trimmed output is one of the browser-compatible audio
codecs. -/
theorem claim3_fail_closed (probeOut : Option String) :
    needsTranscoding none = true ∧
    (needsTranscoding probeOut = false ↔
      ∃ out, probeOut = some out ∧ compatibleAudio (trimSpace out) = true) := by
  refine ⟨rfl, ?_⟩
  cases probeOut with
  | none => simp [needsTranscoding]
  | some out => simp [needsTranscoding]

/-- Witness for claim C3: a successful probe reporting aac (with
surrounding whitespace) is classified as not needing transcoding. -/
theorem claim3_fail_closed_witness :
    needsTranscoding (some " aac\n") = false :=
  (claim3_fail_closed (some " aac\n")).2.mpr ⟨" aac\n", rfl, by decide⟩

/-- Claim C4: a file with extension .mkv classifies as Convert for every
probe outcome (the prober is irrelevant); a .mp4 file probed as aac
classifies as Direct; a .mp4 file probed as dts classifies as Convert;
a .txt file classifies as Unsupported for every probe outcome; and the
prober is consulted only for non-directories whose extension is in the
native-format allow-list. -/
theorem claim4_classifier :
    (∀ name probeOut, goToLower (goExt name) = ".mkv" →
        classify name false probeOut = .Convert) ∧
    (∀ name, goToLower (goExt name) = ".mp4" →
        classify name false (some "aac") = .Direct) ∧
    (∀ name, goToLower (goExt name) = ".mp4" →
        classify name false (some "dts") = .Convert) ∧
    (∀ name probeOut, goToLower (goExt name) = ".txt" →
        classify name false probeOut = .Unsupported) ∧
    (∀ name isDir, probeConsulted name isDir = true →
        isDir = false ∧ nativeFormats (goToLower (goExt name)) = true) := by
  refine ⟨?_, ?_, ?_, ?_, ?_⟩
  · intro name probeOut h
    unfold classify
    rw [h]
    rfl
  · intro name h
    unfold classify
    rw [h]
    rfl
  · intro name h
    unfold classify
    rw [h]
    rfl
  · intro name probeOut h
    unfold classify
    rw [h]
    rfl
  · intro name isDir h
    unfold probeConsulted at h
    simp only [Bool.and_eq_true, Bool.not_eq_true'] at h
    exact ⟨h.2, h.1.1⟩

/-- Witness for claim C4 at concrete file names. -/
theorem claim4_classifier_witness :
    classify "movie.mkv" false (some "aac") = .Convert ∧
    classify "clip.mp4" false (some "aac") = .Direct ∧
    classify "clip2.mp4" false (some "dts") = .Convert ∧
    classify "notes.txt" false none = .Unsupported :=
  ⟨claim4_classifier.1 "movie.mkv" (some "aac") (by decide),
   claim4_classifier.2.1 "clip.mp4" (by decide),
   claim4_classifier.2.2.1 "clip2.mp4" (by decide),
   claim4_classifier.2.2.2.1 "notes.txt" none (by decide)⟩

theorem runD_append {n : Nat} (cfg : Fin n → HandlerCfg) (s : Sys n)
    (as bs : List (Act n)) :
    runD cfg s (as ++ bs) = runD cfg (runD cfg s as) bs := by
  induction as generalizing s with
  | nil => rfl
  | cons a as ih => simp [runD, ih]

theorem runD_inv {n : Nat} (cfg : Fin n → HandlerCfg) (P : Sys n → Prop)
    (pres : ∀ s a, P s → P (stepD cfg s a)) :
    ∀ (acts : List (Act n)) (s : Sys n), P s → P (runD cfg s acts) := by
  intro acts
  induction acts with
  | nil => intro s hP; exact hP
  | cons a as ih => intro s hP; exact ih _ (pres s a hP)

/-- Claim C1 is violated by the code: the kill of the predecessor and
the recording of the successor happen under two separate acquisitions
of transcodeMutex (main.go 594-601 versus 630-632), and in the schedule
traceTwoAlive both conversion processes are simultaneously alive, with
the slot pointing at handler 0 while the process of handler 1 runs
untracked. -/
theorem claim1_two_processes_alive :
    aliveCount (runD cfgPair (sysInit 2) traceTwoAlive) = 2 ∧
    (runD cfgPair (sysInit 2) traceTwoAlive).activeCmd = some 0 ∧
    ((runD cfgPair (sysInit 2) traceTwoAlive).hs 0).proc = .running ∧
    ((runD cfgPair (sysInit 2) traceTwoAlive).hs 1).proc = .running ∧
    ((runD cfgPair (sysInit 2) traceTwoAlive).hs 1).killed = false := by
  decide

/-- Counterexample to claim C2: when the stderr pipe attachment fails
the handler returns a 500 before any bytes and the process was never
started, but the active-conversion slot is not left empty: activeCmd
still holds the command recorded at main.go 631. -/
theorem claim2_counterexample :
    ((runD cfgPipeFail (sysInit 1) tracePipeFail).hs 0).pc = .pcDone ∧
    ((runD cfgPipeFail (sysInit 1) tracePipeFail).hs 0).resp = some 500 ∧
    ((runD cfgPipeFail (sysInit 1) tracePipeFail).hs 0).bytes = false ∧
    ((runD cfgPipeFail (sysInit 1) tracePipeFail).hs 0).proc = .notStarted ∧
    (runD cfgPipeFail (sysInit 1) tracePipeFail).activeCmd = some 0 := by
  decide

/-- Counterexample to claim C8: the process exits with a nonzero status
(exitNonzero is set and the process was never killed), yet nothing is
logged, because main.go 704 suppresses the log whenever the request
context has been cancelled. -/
theorem claim8_counterexample :
    (cfgExitCancel 0).exitNonzero = true ∧
    ((runD cfgExitCancel (sysInit 1) traceExitCancel).hs 0).pc = .pcDone ∧
    ((runD cfgExitCancel (sysInit 1) traceExitCancel).hs 0).killed = false ∧
    ((runD cfgExitCancel (sysInit 1) traceExitCancel).hs 0).reaped = true ∧
    ((runD cfgExitCancel (sysInit 1) traceExitCancel).hs 0).logged = false := by
  decide

@[simp] theorem setSlot_hs {n : Nat} (s : Sys n) (v : Option (Fin n))
    (i : Fin n) : (setSlot s v).hs i = s.hs i := rfl

@[simp] theorem setSlot_activeCmd {n : Nat} (s : Sys n) (v : Option (Fin n)) :
    (setSlot s v).activeCmd = v := rfl

@[simp] theorem setSlot_transcodeMutex {n : Nat} (s : Sys n)
    (v : Option (Fin n)) : (setSlot s v).transcodeMutex = s.transcodeMutex :=
  rfl

@[simp] theorem setMux_hs {n : Nat} (s : Sys n) (v : Option (Fin n))
    (i : Fin n) : (setMux s v).hs i = s.hs i := rfl

@[simp] theorem setMux_activeCmd {n : Nat} (s : Sys n) (v : Option (Fin n)) :
    (setMux s v).activeCmd = s.activeCmd := rfl

@[simp] theorem setMux_transcodeMutex {n : Nat} (s : Sys n)
    (v : Option (Fin n)) : (setMux s v).transcodeMutex = v := rfl

@[simp] theorem setH_hs_self {n : Nat} {s : Sys n} {g : Fin n} {v : HState} :
    (setH s g v).hs g = v := by simp [setH]

theorem setH_hs_ne {n : Nat} {s : Sys n} {i g : Fin n} {v : HState}
    (h : i ≠ g) : (setH s g v).hs i = s.hs i := by simp [setH, h]

@[simp] theorem setH_hs {n : Nat} (s : Sys n) (g : Fin n) (v : HState)
    (i : Fin n) : (setH s g v).hs i = if i = g then v else s.hs i := rfl

@[simp] theorem setH_activeCmd {n : Nat} (s : Sys n) (g : Fin n) (v : HState) :
    (setH s g v).activeCmd = s.activeCmd := rfl

@[simp] theorem setH_transcodeMutex {n : Nat} (s : Sys n) (g : Fin n)
    (v : HState) : (setH s g v).transcodeMutex = s.transcodeMutex := rfl

theorem master_init (n : Nat) (cfg : Fin n → HandlerCfg) :
    Master cfg (sysInit n) := by
  refine ⟨fun h => ⟨?_, ?_, ?_, ?_, ?_, ?_⟩, fun h hl => ?_, fun j hj => ?_,
    fun h hp hf => ?_⟩
  all_goals simp [sysInit, hInit, lateSlot, isPreStart] at *

theorem okH_move {cfg : HandlerCfg} {st : HState} (hk : OkH cfg st) {p : PC}
    (hold : st.pc ≠ .pcDone) (hnd : p ≠ .pcDone)
    (hpre : isPreStart p = true → isPreStart st.pc = true) :
    OkH cfg { st with pc := p } := by
  refine ⟨?_, ?_, ?_, ?_, ?_, ?_⟩
  · intro v hv; exact absurd (hk.respImpliesEnd v hv) hold
  · intro hd; exact absurd hd hnd
  · exact hk.noLogWhenCancelled
  · intro v hv; exact hk.errImpliesFresh v hv
  · intro hd; exact absurd hd hnd
  · intro hp; exact hk.freshBeforeStart (hpre hp)

theorem okH_fail {cfg : HandlerCfg} {st : HState} (hk : OkH cfg st)
    (code : Nat) (hpre : isPreStart st.pc = true) :
    OkH cfg { st with pc := .pcDone, resp := some code } := by
  obtain ⟨hf1, hf2, hf3, hf4⟩ := hk.freshBeforeStart hpre
  refine ⟨?_, ?_, ?_, ?_, ?_, ?_⟩
  · intro v hv; rfl
  · intro _ hr; exact absurd hr (by simp)
  · exact hk.noLogWhenCancelled
  · intro v hv; exact ⟨hf4, hf1, hf2, hf3⟩
  · intro _ hr _ _; exact absurd hr (by simp)
  · intro hp; exact ((by decide : ¬ isPreStart PC.pcDone = true) hp).elim

theorem okH_start {cfg : HandlerCfg} {st : HState} (hk : OkH cfg st)
    (hold : st.pc ≠ .pcDone) :
    OkH cfg { st with
              pc := .pcRace
              proc := .running
              copyT := .cRun
              errT := .eRun } := by
  refine ⟨?_, ?_, ?_, ?_, ?_, ?_⟩
  · intro v hv; exact absurd (hk.respImpliesEnd v hv) hold
  · intro hd; exact ((by decide : PC.pcRace ≠ PC.pcDone) hd).elim
  · exact hk.noLogWhenCancelled
  · intro v hv; exact absurd (hk.respImpliesEnd v hv) hold
  · intro hd; exact ((by decide : PC.pcRace ≠ PC.pcDone) hd).elim
  · intro hp; exact ((by decide : ¬ isPreStart PC.pcRace = true) hp).elim

theorem okH_raceMove {cfg : HandlerCfg} {st : HState} (hk : OkH cfg st)
    (hold : st.pc ≠ .pcDone) (pr : ProcState) (k : Bool) (ct : CopyState) :
    OkH cfg { st with pc := .pcLockC, proc := pr, killed := k, copyT := ct } := by
  refine ⟨?_, ?_, ?_, ?_, ?_, ?_⟩
  · intro v hv; exact absurd (hk.respImpliesEnd v hv) hold
  · intro hd; exact ((by decide : PC.pcLockC ≠ PC.pcDone) hd).elim
  · exact hk.noLogWhenCancelled
  · intro v hv; exact absurd (hk.respImpliesEnd v hv) hold
  · intro hd; exact ((by decide : PC.pcLockC ≠ PC.pcDone) hd).elim
  · intro hp; exact ((by decide : ¬ isPreStart PC.pcLockC = true) hp).elim

theorem okH_copyFin {cfg : HandlerCfg} {st : HState} (hk : OkH cfg st)
    (hrun : st.copyT = .cRun) (b : Bool) :
    OkH cfg { st with copyT := .cSend, bytes := b } := by
  refine ⟨?_, ?_, ?_, ?_, ?_, ?_⟩
  · intro v hv; exact hk.respImpliesEnd v hv
  · exact hk.reapedAtEnd
  · exact hk.noLogWhenCancelled
  · intro v hv
    exact absurd ((hk.errImpliesFresh v hv).2.2.1.symm.trans hrun) (by decide)
  · exact hk.logWhenFailed
  · intro hp
    exact absurd ((hk.freshBeforeStart hp).2.1.symm.trans hrun) (by decide)

theorem okH_errFin {cfg : HandlerCfg} {st : HState} (hk : OkH cfg st)
    (hrun : st.errT = .eRun) :
    OkH cfg { st with errT := .eFin } := by
  refine ⟨?_, ?_, ?_, ?_, ?_, ?_⟩
  · intro v hv; exact hk.respImpliesEnd v hv
  · exact hk.reapedAtEnd
  · exact hk.noLogWhenCancelled
  · intro v hv
    exact absurd ((hk.errImpliesFresh v hv).2.2.2.symm.trans hrun) (by decide)
  · exact hk.logWhenFailed
  · intro hp
    exact absurd ((hk.freshBeforeStart hp).2.2.1.symm.trans hrun) (by decide)

theorem okH_procExit {cfg : HandlerCfg} {st : HState} (hk : OkH cfg st)
    (hrun : st.proc = .running) :
    OkH cfg { st with proc := .exited } := by
  refine ⟨?_, ?_, ?_, ?_, ?_, ?_⟩
  · intro v hv; exact hk.respImpliesEnd v hv
  · exact hk.reapedAtEnd
  · exact hk.noLogWhenCancelled
  · intro v hv
    exact absurd ((hk.errImpliesFresh v hv).2.1.symm.trans hrun) (by decide)
  · exact hk.logWhenFailed
  · intro hp
    exact absurd ((hk.freshBeforeStart hp).1.symm.trans hrun) (by decide)

theorem okH_victim {cfg : HandlerCfg} {st : HState} (hk : OkH cfg st)
    (hns : st.proc ≠ .notStarted) (k : Bool) :
    OkH cfg { st with proc := .exited, killed := k, reaped := true } := by
  refine ⟨?_, ?_, ?_, ?_, ?_, ?_⟩
  · intro v hv; exact hk.respImpliesEnd v hv
  · intro _ _; rfl
  · exact hk.noLogWhenCancelled
  · intro v hv; exact absurd (hk.errImpliesFresh v hv).2.1 hns
  · exact hk.logWhenFailed
  · intro hp; exact absurd (hk.freshBeforeStart hp).1 hns

theorem okH_wait {cfg : HandlerCfg} {st : HState} (hk : OkH cfg st)
    (hold : st.pc ≠ .pcDone) :
    OkH cfg { st with
              pc := .pcDone
              reaped := true
              logged := (cfg.exitNonzero || st.killed || st.reaped)
                          && !cfg.ctxCancelled } := by
  refine ⟨?_, ?_, ?_, ?_, ?_, ?_⟩
  · intro v hv; rfl
  · intro _ _; rfl
  · intro hc; simp [hc]
  · intro v hv; exact absurd (hk.respImpliesEnd v hv) hold
  · intro _ _ he hc; simp [he, hc]
  · intro hp; exact ((by decide : ¬ isPreStart PC.pcDone = true) hp).elim

theorem master_go {n : Nat} {cfg : Fin n → HandlerCfg} {s s2 : Sys n}
    {g : Fin n} (hm : Master cfg s) (hst : step cfg s (.go g) = some s2) :
    Master cfg s2 := by
  obtain ⟨hok, hlate, hown, hmiss⟩ := hm
  simp only [step] at hst
  cases hpc : (s.hs g).pc <;> simp only [hpc] at hst
  case pcPath =>
    split at hst
    next hc =>
      injection hst with hst; subst hst
      refine ⟨fun i => ?_, fun i hl => ?_, fun j2 hj2 => ?_, fun i hp hf => ?_⟩
      · by_cases hig : i = g
        · subst hig
          rw [setH_hs_self]
          exact okH_move (hok i) (by rw [hpc]; decide) (by decide)
            (by rw [hpc]; decide)
        · rw [setH_hs_ne hig]; exact hok i
      · rw [setH_activeCmd]
        by_cases hig : i = g
        · subst hig
          rw [setH_hs_self] at hl
          simp [lateSlot] at hl
        · rw [setH_hs_ne hig] at hl
          exact hlate i hl
      · rw [setH_activeCmd] at hj2
        by_cases hjg : j2 = g
        · subst hjg
          have hcontra := hown j2 hj2
          rw [hpc] at hcontra
          exact absurd hcontra (by decide)
        · rw [setH_hs_ne hjg]
          exact hown j2 hj2
      · obtain ⟨hset, hsl, hmx⟩ := hmiss i hp hf
        rw [setH_activeCmd, setH_transcodeMutex]
        by_cases hig : i = g
        · subst hig
          refine ⟨Or.inr (Or.inl ?_), hsl, hmx⟩
          rw [setH_hs_self]
        · refine ⟨?_, hsl, hmx⟩
          rw [setH_hs_ne hig]
          exact hset
    next hc =>
      injection hst with hst; subst hst
      refine ⟨fun i => ?_, fun i hl => ?_, fun j2 hj2 => ?_, fun i hp hf => ?_⟩
      · by_cases hig : i = g
        · subst hig
          rw [setH_hs_self]
          exact okH_fail (hok i) 400 (by rw [hpc]; decide)
        · rw [setH_hs_ne hig]; exact hok i
      · rw [setH_activeCmd]
        by_cases hig : i = g
        · subst hig
          rw [setH_hs_self] at hl
          simp [lateSlot] at hl
        · rw [setH_hs_ne hig] at hl
          exact hlate i hl
      · rw [setH_activeCmd] at hj2
        by_cases hjg : j2 = g
        · subst hjg
          have hcontra := hown j2 hj2
          rw [hpc] at hcontra
          exact absurd hcontra (by decide)
        · rw [setH_hs_ne hjg]
          exact hown j2 hj2
      · by_cases hig : i = g
        · subst hig
          exact absurd hp hc
        · obtain ⟨hset, hsl, hmx⟩ := hmiss i hp hf
          rw [setH_activeCmd, setH_transcodeMutex]
          refine ⟨?_, hsl, hmx⟩
          rw [setH_hs_ne hig]
          exact hset
  case pcStat =>
    split at hst
    next hc =>
      injection hst with hst; subst hst
      refine ⟨fun i => ?_, fun i hl => ?_, fun j2 hj2 => ?_, fun i hp hf => ?_⟩
      · by_cases hig : i = g
        · subst hig
          rw [setH_hs_self]
          exact okH_move (hok i) (by rw [hpc]; decide) (by decide) (by rw [hpc]; decide)
        · rw [setH_hs_ne hig]; exact hok i
      · rw [setH_activeCmd]
        by_cases hig : i = g
        · subst hig
          rw [setH_hs_self] at hl
          simp [lateSlot] at hl
        · rw [setH_hs_ne hig] at hl
          exact hlate i hl
      · rw [setH_activeCmd] at hj2
        by_cases hjg : j2 = g
        · subst hjg
          have hcontra := hown j2 hj2
          rw [hpc] at hcontra
          exact absurd hcontra (by decide)
        · rw [setH_hs_ne hjg]
          exact hown j2 hj2
      · by_cases hig : i = g
        · subst hig
          rw [hf] at hc
          exact absurd hc (by decide)
        · obtain ⟨hset, hsl, hmx⟩ := hmiss i hp hf
          rw [setH_activeCmd, setH_transcodeMutex]
          refine ⟨?_, hsl, hmx⟩
          rw [setH_hs_ne hig]
          exact hset
    next hc =>
      injection hst with hst; subst hst
      refine ⟨fun i => ?_, fun i hl => ?_, fun j2 hj2 => ?_, fun i hp hf => ?_⟩
      · by_cases hig : i = g
        · subst hig
          rw [setH_hs_self]
          exact okH_fail (hok i) 404 (by rw [hpc]; decide)
        · rw [setH_hs_ne hig]; exact hok i
      · rw [setH_activeCmd]
        by_cases hig : i = g
        · subst hig
          rw [setH_hs_self] at hl
          simp [lateSlot] at hl
        · rw [setH_hs_ne hig] at hl
          exact hlate i hl
      · rw [setH_activeCmd] at hj2
        by_cases hjg : j2 = g
        · subst hjg
          rw [setH_hs_self]
          exact rfl
        · rw [setH_hs_ne hjg]
          exact hown j2 hj2
      · by_cases hig : i = g
        · subst hig
          obtain ⟨hset, hsl, hmx⟩ := hmiss i hp hf
          rw [setH_activeCmd, setH_transcodeMutex]
          refine ⟨Or.inr (Or.inr ⟨?_, ?_⟩), hsl, hmx⟩
          · rw [setH_hs_self]
          · rw [setH_hs_self]
        · obtain ⟨hset, hsl, hmx⟩ := hmiss i hp hf
          rw [setH_activeCmd, setH_transcodeMutex]
          refine ⟨?_, hsl, hmx⟩
          rw [setH_hs_ne hig]
          exact hset
  case pcLock1 =>
    split at hst
    next heqm =>
      injection hst with hst; subst hst
      refine ⟨fun i => ?_, fun i hl => ?_, fun j2 hj2 => ?_, fun i hp hf => ?_⟩
      · by_cases hig : i = g
        · subst hig
          rw [setMux_hs, setH_hs_self]
          exact okH_move (hok i) (by rw [hpc]; decide) (by decide) (by rw [hpc]; decide)
        · rw [setMux_hs, setH_hs_ne hig]; exact hok i
      · rw [setMux_activeCmd, setH_activeCmd]
        by_cases hig : i = g
        · subst hig
          rw [setMux_hs, setH_hs_self] at hl
          simp [lateSlot] at hl
        · rw [setMux_hs, setH_hs_ne hig] at hl
          exact hlate i hl
      · rw [setMux_activeCmd, setH_activeCmd] at hj2
        by_cases hjg : j2 = g
        · subst hjg
          have hcontra := hown j2 hj2
          rw [hpc] at hcontra
          exact absurd hcontra (by decide)
        · rw [setMux_hs, setH_hs_ne hjg]
          exact hown j2 hj2
      · by_cases hig : i = g
        · subst hig
          obtain ⟨hset, hsl, hmx⟩ := hmiss i hp hf
          rcases hset with h1 | h1 | ⟨h1, h2⟩ <;> rw [hpc] at h1 <;>
            exact absurd h1 (by decide)
        · obtain ⟨hset, hsl, hmx⟩ := hmiss i hp hf
          rw [setMux_activeCmd, setH_activeCmd, setMux_transcodeMutex]
          refine ⟨?_, hsl, fun hcc => hig (Option.some.inj hcc).symm⟩
          rw [setMux_hs, setH_hs_ne hig]
          exact hset
    next heqm =>
      exact Option.noConfusion hst
  case pcKill =>
    split at hst
    next heqs =>
      injection hst with hst; subst hst
      refine ⟨fun i => ?_, fun i hl => ?_, fun j2 hj2 => ?_, fun i hp hf => ?_⟩
      · by_cases hig : i = g
        · subst hig
          rw [setH_hs_self]
          exact okH_move (hok i) (by rw [hpc]; decide) (by decide) (by rw [hpc]; decide)
        · rw [setH_hs_ne hig]; exact hok i
      · rw [setH_activeCmd]
        by_cases hig : i = g
        · subst hig
          rw [setH_hs_self] at hl
          simp [lateSlot] at hl
        · rw [setH_hs_ne hig] at hl
          exact hlate i hl
      · rw [setH_activeCmd] at hj2
        rw [heqs] at hj2
        exact Option.noConfusion hj2
      · by_cases hig : i = g
        · subst hig
          obtain ⟨hset, hsl, hmx⟩ := hmiss i hp hf
          rcases hset with h1 | h1 | ⟨h1, h2⟩ <;> rw [hpc] at h1 <;>
            exact absurd h1 (by decide)
        · obtain ⟨hset, hsl, hmx⟩ := hmiss i hp hf
          rw [setH_activeCmd, setH_transcodeMutex]
          refine ⟨?_, hsl, hmx⟩
          rw [setH_hs_ne hig]
          exact hset
    next j heqs =>
      split at hst
      next hjns =>
        injection hst with hst; subst hst
        refine ⟨fun i => ?_, fun i hl => ?_, fun j2 hj2 => ?_, fun i hp hf => ?_⟩
        · by_cases hig : i = g
          · subst hig
            rw [setH_hs_self]
            exact okH_move (hok i) (by rw [hpc]; decide) (by decide) (by rw [hpc]; decide)
          · rw [setH_hs_ne hig]; exact hok i
        · rw [setH_activeCmd]
          by_cases hig : i = g
          · subst hig
            rw [setH_hs_self] at hl
            simp [lateSlot] at hl
          · rw [setH_hs_ne hig] at hl
            exact hlate i hl
        · rw [setH_activeCmd] at hj2
          by_cases hjg : j2 = g
          · subst hjg
            have hcontra := hown j2 hj2
            rw [hpc] at hcontra
            exact absurd hcontra (by decide)
          · rw [setH_hs_ne hjg]
            exact hown j2 hj2
        · by_cases hig : i = g
          · subst hig
            obtain ⟨hset, hsl, hmx⟩ := hmiss i hp hf
            rcases hset with h1 | h1 | ⟨h1, h2⟩ <;> rw [hpc] at h1 <;>
              exact absurd h1 (by decide)
          · obtain ⟨hset, hsl, hmx⟩ := hmiss i hp hf
            rw [setH_activeCmd, setH_transcodeMutex]
            refine ⟨?_, hsl, hmx⟩
            rw [setH_hs_ne hig]
            exact hset
      next hjns =>
        have hgj : g ≠ j := by
          intro he
          have hcontra := hown j heqs
          rw [← he, hpc] at hcontra
          exact absurd hcontra (by decide)
        injection hst with hst; subst hst
        refine ⟨fun i => ?_, fun i hl => ?_, fun j2 hj2 => ?_,
          fun i hp hf => ?_⟩
        · by_cases hig : i = g
          · subst hig
            rw [setSlot_hs, setH_hs_self, setH_hs_ne hgj]
            exact okH_move (hok i) (by rw [hpc]; decide) (by decide)
              (by rw [hpc]; decide)
          · by_cases hij : i = j
            · subst hij
              rw [setSlot_hs, setH_hs_ne hig, setH_hs_self]
              exact okH_victim (hok i) hjns _
            · rw [setSlot_hs, setH_hs_ne hig, setH_hs_ne hij]
              exact hok i
        · rw [setSlot_activeCmd]
          simp
        · rw [setSlot_activeCmd] at hj2
          exact Option.noConfusion hj2
        · by_cases hig : i = g
          · subst hig
            obtain ⟨hset, hsl, hmx⟩ := hmiss i hp hf
            rcases hset with h1 | h1 | ⟨h1, h2⟩ <;> rw [hpc] at h1 <;>
              exact absurd h1 (by decide)
          · obtain ⟨hset, hsl, hmx⟩ := hmiss i hp hf
            rw [setSlot_activeCmd, setSlot_transcodeMutex,
              setH_transcodeMutex, setH_transcodeMutex]
            refine ⟨?_, by simp, hmx⟩
            by_cases hij : i = j
            · subst hij
              rw [setSlot_hs, setH_hs_ne hig, setH_hs_self]
              exact hset
            · rw [setSlot_hs, setH_hs_ne hig, setH_hs_ne hij]
              exact hset
  case pcUnlock1 =>
      injection hst with hst; subst hst
      refine ⟨fun i => ?_, fun i hl => ?_, fun j2 hj2 => ?_, fun i hp hf => ?_⟩
      · by_cases hig : i = g
        · subst hig
          rw [setMux_hs, setH_hs_self]
          exact okH_move (hok i) (by rw [hpc]; decide) (by decide) (by rw [hpc]; decide)
        · rw [setMux_hs, setH_hs_ne hig]; exact hok i
      · rw [setMux_activeCmd, setH_activeCmd]
        by_cases hig : i = g
        · subst hig
          rw [setMux_hs, setH_hs_self] at hl
          simp [lateSlot] at hl
        · rw [setMux_hs, setH_hs_ne hig] at hl
          exact hlate i hl
      · rw [setMux_activeCmd, setH_activeCmd] at hj2
        by_cases hjg : j2 = g
        · subst hjg
          have hcontra := hown j2 hj2
          rw [hpc] at hcontra
          exact absurd hcontra (by decide)
        · rw [setMux_hs, setH_hs_ne hjg]
          exact hown j2 hj2
      · by_cases hig : i = g
        · subst hig
          obtain ⟨hset, hsl, hmx⟩ := hmiss i hp hf
          rcases hset with h1 | h1 | ⟨h1, h2⟩ <;> rw [hpc] at h1 <;>
            exact absurd h1 (by decide)
        · obtain ⟨hset, hsl, hmx⟩ := hmiss i hp hf
          rw [setMux_activeCmd, setH_activeCmd, setMux_transcodeMutex]
          refine ⟨?_, hsl, by simp⟩
          rw [setMux_hs, setH_hs_ne hig]
          exact hset
  case pcMk =>
      injection hst with hst; subst hst
      refine ⟨fun i => ?_, fun i hl => ?_, fun j2 hj2 => ?_, fun i hp hf => ?_⟩
      · by_cases hig : i = g
        · subst hig
          rw [setH_hs_self]
          exact okH_move (hok i) (by rw [hpc]; decide) (by decide) (by rw [hpc]; decide)
        · rw [setH_hs_ne hig]; exact hok i
      · rw [setH_activeCmd]
        by_cases hig : i = g
        · subst hig
          rw [setH_hs_self] at hl
          simp [lateSlot] at hl
        · rw [setH_hs_ne hig] at hl
          exact hlate i hl
      · rw [setH_activeCmd] at hj2
        by_cases hjg : j2 = g
        · subst hjg
          have hcontra := hown j2 hj2
          rw [hpc] at hcontra
          exact absurd hcontra (by decide)
        · rw [setH_hs_ne hjg]
          exact hown j2 hj2
      · by_cases hig : i = g
        · subst hig
          obtain ⟨hset, hsl, hmx⟩ := hmiss i hp hf
          rcases hset with h1 | h1 | ⟨h1, h2⟩ <;> rw [hpc] at h1 <;>
            exact absurd h1 (by decide)
        · obtain ⟨hset, hsl, hmx⟩ := hmiss i hp hf
          rw [setH_activeCmd, setH_transcodeMutex]
          refine ⟨?_, hsl, hmx⟩
          rw [setH_hs_ne hig]
          exact hset
  case pcLock2 =>
    split at hst
    next heqm =>
      injection hst with hst; subst hst
      refine ⟨fun i => ?_, fun i hl => ?_, fun j2 hj2 => ?_, fun i hp hf => ?_⟩
      · by_cases hig : i = g
        · subst hig
          rw [setMux_hs, setH_hs_self]
          exact okH_move (hok i) (by rw [hpc]; decide) (by decide) (by rw [hpc]; decide)
        · rw [setMux_hs, setH_hs_ne hig]; exact hok i
      · rw [setMux_activeCmd, setH_activeCmd]
        by_cases hig : i = g
        · subst hig
          rw [setMux_hs, setH_hs_self] at hl
          simp [lateSlot] at hl
        · rw [setMux_hs, setH_hs_ne hig] at hl
          exact hlate i hl
      · rw [setMux_activeCmd, setH_activeCmd] at hj2
        by_cases hjg : j2 = g
        · subst hjg
          have hcontra := hown j2 hj2
          rw [hpc] at hcontra
          exact absurd hcontra (by decide)
        · rw [setMux_hs, setH_hs_ne hjg]
          exact hown j2 hj2
      · by_cases hig : i = g
        · subst hig
          obtain ⟨hset, hsl, hmx⟩ := hmiss i hp hf
          rcases hset with h1 | h1 | ⟨h1, h2⟩ <;> rw [hpc] at h1 <;>
            exact absurd h1 (by decide)
        · obtain ⟨hset, hsl, hmx⟩ := hmiss i hp hf
          rw [setMux_activeCmd, setH_activeCmd, setMux_transcodeMutex]
          refine ⟨?_, hsl, fun hcc => hig (Option.some.inj hcc).symm⟩
          rw [setMux_hs, setH_hs_ne hig]
          exact hset
    next heqm =>
      exact Option.noConfusion hst
  case pcRecord =>
      injection hst with hst; subst hst
      refine ⟨fun i => ?_, fun i hl => ?_, fun j2 hj2 => ?_, fun i hp hf => ?_⟩
      · by_cases hig : i = g
        · subst hig
          rw [setSlot_hs, setH_hs_self]
          exact okH_move (hok i) (by rw [hpc]; decide) (by decide) (by rw [hpc]; decide)
        · rw [setSlot_hs, setH_hs_ne hig]; exact hok i
      · rw [setSlot_activeCmd]
        by_cases hig : i = g
        · subst hig
          rw [setSlot_hs, setH_hs_self] at hl
          simp [lateSlot] at hl
        · intro hcc
          exact hig (Option.some.inj hcc).symm
      · rw [setSlot_activeCmd] at hj2
        obtain rfl := Option.some.inj hj2
        rw [setSlot_hs, setH_hs_self]
        exact rfl
      · by_cases hig : i = g
        · subst hig
          obtain ⟨hset, hsl, hmx⟩ := hmiss i hp hf
          rcases hset with h1 | h1 | ⟨h1, h2⟩ <;> rw [hpc] at h1 <;>
            exact absurd h1 (by decide)
        · obtain ⟨hset, hsl, hmx⟩ := hmiss i hp hf
          rw [setSlot_activeCmd, setSlot_transcodeMutex, setH_transcodeMutex]
          refine ⟨?_, fun hcc => hig (Option.some.inj hcc).symm, hmx⟩
          rw [setSlot_hs, setH_hs_ne hig]
          exact hset
  case pcUnlock2 =>
      injection hst with hst; subst hst
      refine ⟨fun i => ?_, fun i hl => ?_, fun j2 hj2 => ?_, fun i hp hf => ?_⟩
      · by_cases hig : i = g
        · subst hig
          rw [setMux_hs, setH_hs_self]
          exact okH_move (hok i) (by rw [hpc]; decide) (by decide) (by rw [hpc]; decide)
        · rw [setMux_hs, setH_hs_ne hig]; exact hok i
      · rw [setMux_activeCmd, setH_activeCmd]
        by_cases hig : i = g
        · subst hig
          rw [setMux_hs, setH_hs_self] at hl
          simp [lateSlot] at hl
        · rw [setMux_hs, setH_hs_ne hig] at hl
          exact hlate i hl
      · rw [setMux_activeCmd, setH_activeCmd] at hj2
        by_cases hjg : j2 = g
        · subst hjg
          rw [setMux_hs, setH_hs_self]
          exact rfl
        · rw [setMux_hs, setH_hs_ne hjg]
          exact hown j2 hj2
      · by_cases hig : i = g
        · subst hig
          obtain ⟨hset, hsl, hmx⟩ := hmiss i hp hf
          rcases hset with h1 | h1 | ⟨h1, h2⟩ <;> rw [hpc] at h1 <;>
            exact absurd h1 (by decide)
        · obtain ⟨hset, hsl, hmx⟩ := hmiss i hp hf
          rw [setMux_activeCmd, setH_activeCmd, setMux_transcodeMutex]
          refine ⟨?_, hsl, by simp⟩
          rw [setMux_hs, setH_hs_ne hig]
          exact hset
  case pcStderr =>
    split at hst
    next hc =>
      injection hst with hst; subst hst
      refine ⟨fun i => ?_, fun i hl => ?_, fun j2 hj2 => ?_, fun i hp hf => ?_⟩
      · by_cases hig : i = g
        · subst hig
          rw [setH_hs_self]
          exact okH_move (hok i) (by rw [hpc]; decide) (by decide) (by rw [hpc]; decide)
        · rw [setH_hs_ne hig]; exact hok i
      · rw [setH_activeCmd]
        by_cases hig : i = g
        · subst hig
          rw [setH_hs_self] at hl
          simp [lateSlot] at hl
        · rw [setH_hs_ne hig] at hl
          exact hlate i hl
      · rw [setH_activeCmd] at hj2
        by_cases hjg : j2 = g
        · subst hjg
          rw [setH_hs_self]
          exact rfl
        · rw [setH_hs_ne hjg]
          exact hown j2 hj2
      · by_cases hig : i = g
        · subst hig
          obtain ⟨hset, hsl, hmx⟩ := hmiss i hp hf
          rcases hset with h1 | h1 | ⟨h1, h2⟩ <;> rw [hpc] at h1 <;>
            exact absurd h1 (by decide)
        · obtain ⟨hset, hsl, hmx⟩ := hmiss i hp hf
          rw [setH_activeCmd, setH_transcodeMutex]
          refine ⟨?_, hsl, hmx⟩
          rw [setH_hs_ne hig]
          exact hset
    next hc =>
      injection hst with hst; subst hst
      refine ⟨fun i => ?_, fun i hl => ?_, fun j2 hj2 => ?_, fun i hp hf => ?_⟩
      · by_cases hig : i = g
        · subst hig
          rw [setH_hs_self]
          exact okH_fail (hok i) 500 (by rw [hpc]; decide)
        · rw [setH_hs_ne hig]; exact hok i
      · rw [setH_activeCmd]
        by_cases hig : i = g
        · subst hig
          rw [setH_hs_self] at hl
          simp [lateSlot] at hl
        · rw [setH_hs_ne hig] at hl
          exact hlate i hl
      · rw [setH_activeCmd] at hj2
        by_cases hjg : j2 = g
        · subst hjg
          rw [setH_hs_self]
          exact rfl
        · rw [setH_hs_ne hjg]
          exact hown j2 hj2
      · by_cases hig : i = g
        · subst hig
          obtain ⟨hset, hsl, hmx⟩ := hmiss i hp hf
          rcases hset with h1 | h1 | ⟨h1, h2⟩ <;> rw [hpc] at h1 <;>
            exact absurd h1 (by decide)
        · obtain ⟨hset, hsl, hmx⟩ := hmiss i hp hf
          rw [setH_activeCmd, setH_transcodeMutex]
          refine ⟨?_, hsl, hmx⟩
          rw [setH_hs_ne hig]
          exact hset
  case pcStdout =>
    split at hst
    next hc =>
      injection hst with hst; subst hst
      refine ⟨fun i => ?_, fun i hl => ?_, fun j2 hj2 => ?_, fun i hp hf => ?_⟩
      · by_cases hig : i = g
        · subst hig
          rw [setH_hs_self]
          exact okH_move (hok i) (by rw [hpc]; decide) (by decide) (by rw [hpc]; decide)
        · rw [setH_hs_ne hig]; exact hok i
      · rw [setH_activeCmd]
        by_cases hig : i = g
        · subst hig
          rw [setH_hs_self] at hl
          simp [lateSlot] at hl
        · rw [setH_hs_ne hig] at hl
          exact hlate i hl
      · rw [setH_activeCmd] at hj2
        by_cases hjg : j2 = g
        · subst hjg
          rw [setH_hs_self]
          exact rfl
        · rw [setH_hs_ne hjg]
          exact hown j2 hj2
      · by_cases hig : i = g
        · subst hig
          obtain ⟨hset, hsl, hmx⟩ := hmiss i hp hf
          rcases hset with h1 | h1 | ⟨h1, h2⟩ <;> rw [hpc] at h1 <;>
            exact absurd h1 (by decide)
        · obtain ⟨hset, hsl, hmx⟩ := hmiss i hp hf
          rw [setH_activeCmd, setH_transcodeMutex]
          refine ⟨?_, hsl, hmx⟩
          rw [setH_hs_ne hig]
          exact hset
    next hc =>
      injection hst with hst; subst hst
      refine ⟨fun i => ?_, fun i hl => ?_, fun j2 hj2 => ?_, fun i hp hf => ?_⟩
      · by_cases hig : i = g
        · subst hig
          rw [setH_hs_self]
          exact okH_fail (hok i) 500 (by rw [hpc]; decide)
        · rw [setH_hs_ne hig]; exact hok i
      · rw [setH_activeCmd]
        by_cases hig : i = g
        · subst hig
          rw [setH_hs_self] at hl
          simp [lateSlot] at hl
        · rw [setH_hs_ne hig] at hl
          exact hlate i hl
      · rw [setH_activeCmd] at hj2
        by_cases hjg : j2 = g
        · subst hjg
          rw [setH_hs_self]
          exact rfl
        · rw [setH_hs_ne hjg]
          exact hown j2 hj2
      · by_cases hig : i = g
        · subst hig
          obtain ⟨hset, hsl, hmx⟩ := hmiss i hp hf
          rcases hset with h1 | h1 | ⟨h1, h2⟩ <;> rw [hpc] at h1 <;>
            exact absurd h1 (by decide)
        · obtain ⟨hset, hsl, hmx⟩ := hmiss i hp hf
          rw [setH_activeCmd, setH_transcodeMutex]
          refine ⟨?_, hsl, hmx⟩
          rw [setH_hs_ne hig]
          exact hset
  case pcStart =>
    split at hst
    next hc =>
      injection hst with hst; subst hst
      refine ⟨fun i => ?_, fun i hl => ?_, fun j2 hj2 => ?_, fun i hp hf => ?_⟩
      · by_cases hig : i = g
        · subst hig
          rw [setH_hs_self]
          exact okH_start (hok i) (by rw [hpc]; decide)
        · rw [setH_hs_ne hig]; exact hok i
      · rw [setH_activeCmd]
        by_cases hig : i = g
        · subst hig
          rw [setH_hs_self] at hl
          simp [lateSlot] at hl
        · rw [setH_hs_ne hig] at hl
          exact hlate i hl
      · rw [setH_activeCmd] at hj2
        by_cases hjg : j2 = g
        · subst hjg
          rw [setH_hs_self]
          exact rfl
        · rw [setH_hs_ne hjg]
          exact hown j2 hj2
      · by_cases hig : i = g
        · subst hig
          obtain ⟨hset, hsl, hmx⟩ := hmiss i hp hf
          rcases hset with h1 | h1 | ⟨h1, h2⟩ <;> rw [hpc] at h1 <;>
            exact absurd h1 (by decide)
        · obtain ⟨hset, hsl, hmx⟩ := hmiss i hp hf
          rw [setH_activeCmd, setH_transcodeMutex]
          refine ⟨?_, hsl, hmx⟩
          rw [setH_hs_ne hig]
          exact hset
    next hc =>
      injection hst with hst; subst hst
      refine ⟨fun i => ?_, fun i hl => ?_, fun j2 hj2 => ?_, fun i hp hf => ?_⟩
      · by_cases hig : i = g
        · subst hig
          rw [setH_hs_self]
          exact okH_fail (hok i) 500 (by rw [hpc]; decide)
        · rw [setH_hs_ne hig]; exact hok i
      · rw [setH_activeCmd]
        by_cases hig : i = g
        · subst hig
          rw [setH_hs_self] at hl
          simp [lateSlot] at hl
        · rw [setH_hs_ne hig] at hl
          exact hlate i hl
      · rw [setH_activeCmd] at hj2
        by_cases hjg : j2 = g
        · subst hjg
          rw [setH_hs_self]
          exact rfl
        · rw [setH_hs_ne hjg]
          exact hown j2 hj2
      · by_cases hig : i = g
        · subst hig
          obtain ⟨hset, hsl, hmx⟩ := hmiss i hp hf
          rcases hset with h1 | h1 | ⟨h1, h2⟩ <;> rw [hpc] at h1 <;>
            exact absurd h1 (by decide)
        · obtain ⟨hset, hsl, hmx⟩ := hmiss i hp hf
          rw [setH_activeCmd, setH_transcodeMutex]
          refine ⟨?_, hsl, hmx⟩
          rw [setH_hs_ne hig]
          exact hset
  case pcRace =>
    exact Option.noConfusion hst
  case pcLockC =>
    split at hst
    next heqm =>
      injection hst with hst; subst hst
      refine ⟨fun i => ?_, fun i hl => ?_, fun j2 hj2 => ?_, fun i hp hf => ?_⟩
      · by_cases hig : i = g
        · subst hig
          rw [setMux_hs, setH_hs_self]
          exact okH_move (hok i) (by rw [hpc]; decide) (by decide) (by rw [hpc]; decide)
        · rw [setMux_hs, setH_hs_ne hig]; exact hok i
      · rw [setMux_activeCmd, setH_activeCmd]
        by_cases hig : i = g
        · subst hig
          rw [setMux_hs, setH_hs_self] at hl
          simp [lateSlot] at hl
        · rw [setMux_hs, setH_hs_ne hig] at hl
          exact hlate i hl
      · rw [setMux_activeCmd, setH_activeCmd] at hj2
        by_cases hjg : j2 = g
        · subst hjg
          rw [setMux_hs, setH_hs_self]
          exact rfl
        · rw [setMux_hs, setH_hs_ne hjg]
          exact hown j2 hj2
      · by_cases hig : i = g
        · subst hig
          obtain ⟨hset, hsl, hmx⟩ := hmiss i hp hf
          rcases hset with h1 | h1 | ⟨h1, h2⟩ <;> rw [hpc] at h1 <;>
            exact absurd h1 (by decide)
        · obtain ⟨hset, hsl, hmx⟩ := hmiss i hp hf
          rw [setMux_activeCmd, setH_activeCmd, setMux_transcodeMutex]
          refine ⟨?_, hsl, fun hcc => hig (Option.some.inj hcc).symm⟩
          rw [setMux_hs, setH_hs_ne hig]
          exact hset
    next heqm =>
      exact Option.noConfusion hst
  case pcClear =>
    split at hst
    next hcl =>
      injection hst with hst; subst hst
      refine ⟨fun i => ?_, fun i hl => ?_, fun j2 hj2 => ?_, fun i hp hf => ?_⟩
      · by_cases hig : i = g
        · subst hig
          rw [setSlot_hs, setH_hs_self]
          exact okH_move (hok i) (by rw [hpc]; decide) (by decide) (by rw [hpc]; decide)
        · rw [setSlot_hs, setH_hs_ne hig]; exact hok i
      · rw [setSlot_activeCmd]
        simp
      · rw [setSlot_activeCmd] at hj2
        exact Option.noConfusion hj2
      · by_cases hig : i = g
        · subst hig
          obtain ⟨hset, hsl, hmx⟩ := hmiss i hp hf
          rcases hset with h1 | h1 | ⟨h1, h2⟩ <;> rw [hpc] at h1 <;>
            exact absurd h1 (by decide)
        · obtain ⟨hset, hsl, hmx⟩ := hmiss i hp hf
          rw [setSlot_activeCmd, setSlot_transcodeMutex, setH_transcodeMutex]
          refine ⟨?_, by simp, hmx⟩
          rw [setSlot_hs, setH_hs_ne hig]
          exact hset
    next hcl =>
      injection hst with hst; subst hst
      refine ⟨fun i => ?_, fun i hl => ?_, fun j2 hj2 => ?_, fun i hp hf => ?_⟩
      · by_cases hig : i = g
        · subst hig
          rw [setH_hs_self]
          exact okH_move (hok i) (by rw [hpc]; decide) (by decide) (by rw [hpc]; decide)
        · rw [setH_hs_ne hig]; exact hok i
      · rw [setH_activeCmd]
        by_cases hig : i = g
        · subst hig
          exact hcl
        · rw [setH_hs_ne hig] at hl
          exact hlate i hl
      · rw [setH_activeCmd] at hj2
        by_cases hjg : j2 = g
        · subst hjg
          exact absurd hj2 hcl
        · rw [setH_hs_ne hjg]
          exact hown j2 hj2
      · by_cases hig : i = g
        · subst hig
          obtain ⟨hset, hsl, hmx⟩ := hmiss i hp hf
          rcases hset with h1 | h1 | ⟨h1, h2⟩ <;> rw [hpc] at h1 <;>
            exact absurd h1 (by decide)
        · obtain ⟨hset, hsl, hmx⟩ := hmiss i hp hf
          rw [setH_activeCmd, setH_transcodeMutex]
          refine ⟨?_, hsl, hmx⟩
          rw [setH_hs_ne hig]
          exact hset
  case pcUnlockC =>
      injection hst with hst; subst hst
      refine ⟨fun i => ?_, fun i hl => ?_, fun j2 hj2 => ?_, fun i hp hf => ?_⟩
      · by_cases hig : i = g
        · subst hig
          rw [setMux_hs, setH_hs_self]
          exact okH_move (hok i) (by rw [hpc]; decide) (by decide) (by rw [hpc]; decide)
        · rw [setMux_hs, setH_hs_ne hig]; exact hok i
      · rw [setMux_activeCmd, setH_activeCmd]
        by_cases hig : i = g
        · subst hig
          rw [setMux_hs, setH_hs_self] at hl
          exact hlate i (Or.inl hpc)
        · rw [setMux_hs, setH_hs_ne hig] at hl
          exact hlate i hl
      · rw [setMux_activeCmd, setH_activeCmd] at hj2
        by_cases hjg : j2 = g
        · subst hjg
          have hcontra := hown j2 hj2
          rw [hpc] at hcontra
          exact absurd hcontra (by decide)
        · rw [setMux_hs, setH_hs_ne hjg]
          exact hown j2 hj2
      · by_cases hig : i = g
        · subst hig
          obtain ⟨hset, hsl, hmx⟩ := hmiss i hp hf
          rcases hset with h1 | h1 | ⟨h1, h2⟩ <;> rw [hpc] at h1 <;>
            exact absurd h1 (by decide)
        · obtain ⟨hset, hsl, hmx⟩ := hmiss i hp hf
          rw [setMux_activeCmd, setH_activeCmd, setMux_transcodeMutex]
          refine ⟨?_, hsl, by simp⟩
          rw [setMux_hs, setH_hs_ne hig]
          exact hset
  case pcWait =>
    split at hst
    next heqp =>
      injection hst with hst; subst hst
      refine ⟨fun i => ?_, fun i hl => ?_, fun j2 hj2 => ?_, fun i hp hf => ?_⟩
      · by_cases hig : i = g
        · subst hig
          rw [setH_hs_self]
          exact okH_wait (hok i) (by rw [hpc]; decide)
        · rw [setH_hs_ne hig]; exact hok i
      · rw [setH_activeCmd]
        by_cases hig : i = g
        · subst hig
          rw [setH_hs_self] at hl
          exact hlate i (Or.inr (Or.inl hpc))
        · rw [setH_hs_ne hig] at hl
          exact hlate i hl
      · rw [setH_activeCmd] at hj2
        by_cases hjg : j2 = g
        · subst hjg
          rw [setH_hs_self]
          exact rfl
        · rw [setH_hs_ne hjg]
          exact hown j2 hj2
      · by_cases hig : i = g
        · subst hig
          obtain ⟨hset, hsl, hmx⟩ := hmiss i hp hf
          rcases hset with h1 | h1 | ⟨h1, h2⟩ <;> rw [hpc] at h1 <;>
            exact absurd h1 (by decide)
        · obtain ⟨hset, hsl, hmx⟩ := hmiss i hp hf
          rw [setH_activeCmd, setH_transcodeMutex]
          refine ⟨?_, hsl, hmx⟩
          rw [setH_hs_ne hig]
          exact hset
    next heqp =>
      exact Option.noConfusion hst
  case pcDone =>
    exact Option.noConfusion hst

theorem master_raceRecv {n : Nat} {cfg : Fin n → HandlerCfg} {s s2 : Sys n}
    {g : Fin n} (hm : Master cfg s)
    (hst : step cfg s (.raceRecv g) = some s2) : Master cfg s2 := by
  obtain ⟨hok, hlate, hown, hmiss⟩ := hm
  simp only [step] at hst
  split at hst
  next hcond =>
    obtain ⟨hpc, hcs⟩ := hcond
    injection hst with hst; subst hst
    refine ⟨fun i => ?_, fun i hl => ?_, fun j2 hj2 => ?_, fun i hp hf => ?_⟩
    · by_cases hig : i = g
      · subst hig
        rw [setH_hs_self]
        exact okH_raceMove (hok i) (by rw [hpc]; decide) _ _ _
      · rw [setH_hs_ne hig]; exact hok i
    · rw [setH_activeCmd]
      by_cases hig : i = g
      · subst hig
        rw [setH_hs_self] at hl
        simp [lateSlot] at hl
      · rw [setH_hs_ne hig] at hl
        exact hlate i hl
    · rw [setH_activeCmd] at hj2
      by_cases hjg : j2 = g
      · subst hjg
        rw [setH_hs_self]
        exact rfl
      · rw [setH_hs_ne hjg]
        exact hown j2 hj2
    · by_cases hig : i = g
      · subst hig
        obtain ⟨hset, hsl, hmx⟩ := hmiss i hp hf
        rcases hset with h1 | h1 | ⟨h1, h2⟩ <;> rw [hpc] at h1 <;>
          exact absurd h1 (by decide)
      · obtain ⟨hset, hsl, hmx⟩ := hmiss i hp hf
        rw [setH_activeCmd, setH_transcodeMutex]
        refine ⟨?_, hsl, hmx⟩
        rw [setH_hs_ne hig]
        exact hset
  next hcond => exact Option.noConfusion hst

theorem master_raceCancel {n : Nat} {cfg : Fin n → HandlerCfg} {s s2 : Sys n}
    {g : Fin n} (hm : Master cfg s)
    (hst : step cfg s (.raceCancel g) = some s2) : Master cfg s2 := by
  obtain ⟨hok, hlate, hown, hmiss⟩ := hm
  simp only [step] at hst
  split at hst
  next hcond =>
    obtain ⟨hpc, hcanc⟩ := hcond
    split at hst <;> injection hst with hst <;> subst hst <;>
      refine ⟨fun i => ?_, fun i hl => ?_, fun j2 hj2 => ?_, fun i hp hf => ?_⟩
    case _ =>
      by_cases hig : i = g
      · subst hig
        rw [setH_hs_self]
        exact okH_raceMove (hok i) (by rw [hpc]; decide) _ _ _
      · rw [setH_hs_ne hig]; exact hok i
    case _ =>
      rw [setH_activeCmd]
      by_cases hig : i = g
      · subst hig
        rw [setH_hs_self] at hl
        simp [lateSlot] at hl
      · rw [setH_hs_ne hig] at hl
        exact hlate i hl
    case _ =>
      rw [setH_activeCmd] at hj2
      by_cases hjg : j2 = g
      · subst hjg
        rw [setH_hs_self]
        exact rfl
      · rw [setH_hs_ne hjg]
        exact hown j2 hj2
    case _ =>
      by_cases hig : i = g
      · subst hig
        obtain ⟨hset, hsl, hmx⟩ := hmiss i hp hf
        rcases hset with h1 | h1 | ⟨h1, h2⟩ <;> rw [hpc] at h1 <;>
          exact absurd h1 (by decide)
      · obtain ⟨hset, hsl, hmx⟩ := hmiss i hp hf
        rw [setH_activeCmd, setH_transcodeMutex]
        refine ⟨?_, hsl, hmx⟩
        rw [setH_hs_ne hig]
        exact hset
    case _ =>
      by_cases hig : i = g
      · subst hig
        rw [setH_hs_self]
        exact okH_raceMove (hok i) (by rw [hpc]; decide) _ _ _
      · rw [setH_hs_ne hig]; exact hok i
    case _ =>
      rw [setH_activeCmd]
      by_cases hig : i = g
      · subst hig
        rw [setH_hs_self] at hl
        simp [lateSlot] at hl
      · rw [setH_hs_ne hig] at hl
        exact hlate i hl
    case _ =>
      rw [setH_activeCmd] at hj2
      by_cases hjg : j2 = g
      · subst hjg
        rw [setH_hs_self]
        exact rfl
      · rw [setH_hs_ne hjg]
        exact hown j2 hj2
    case _ =>
      by_cases hig : i = g
      · subst hig
        obtain ⟨hset, hsl, hmx⟩ := hmiss i hp hf
        rcases hset with h1 | h1 | ⟨h1, h2⟩ <;> rw [hpc] at h1 <;>
          exact absurd h1 (by decide)
      · obtain ⟨hset, hsl, hmx⟩ := hmiss i hp hf
        rw [setH_activeCmd, setH_transcodeMutex]
        refine ⟨?_, hsl, hmx⟩
        rw [setH_hs_ne hig]
        exact hset
  next hcond => exact Option.noConfusion hst

theorem master_copyFinish {n : Nat} {cfg : Fin n → HandlerCfg} {s s2 : Sys n}
    {g : Fin n} (hm : Master cfg s)
    (hst : step cfg s (.copyFinish g) = some s2) : Master cfg s2 := by
  obtain ⟨hok, hlate, hown, hmiss⟩ := hm
  simp only [step] at hst
  split at hst
  next hcond =>
    obtain ⟨hcs, hrest⟩ := hcond
    injection hst with hst; subst hst
    refine ⟨fun i => ?_, fun i hl => ?_, fun j2 hj2 => ?_, fun i hp hf => ?_⟩
    · by_cases hig : i = g
      · subst hig
        rw [setH_hs_self]
        exact okH_copyFin (hok i) hcs _
      · rw [setH_hs_ne hig]; exact hok i
    · rw [setH_activeCmd]
      by_cases hig : i = g
      · subst hig
        rw [setH_hs_self] at hl
        exact hlate i hl
      · rw [setH_hs_ne hig] at hl
        exact hlate i hl
    · rw [setH_activeCmd] at hj2
      by_cases hjg : j2 = g
      · subst hjg
        rw [setH_hs_self]
        exact hown j2 hj2
      · rw [setH_hs_ne hjg]
        exact hown j2 hj2
    · obtain ⟨hset, hsl, hmx⟩ := hmiss i hp hf
      rw [setH_activeCmd, setH_transcodeMutex]
      by_cases hig : i = g
      · subst hig
        refine ⟨?_, hsl, hmx⟩
        rw [setH_hs_self]
        exact hset
      · refine ⟨?_, hsl, hmx⟩
        rw [setH_hs_ne hig]
        exact hset
  next hcond => exact Option.noConfusion hst

theorem master_errFinish {n : Nat} {cfg : Fin n → HandlerCfg} {s s2 : Sys n}
    {g : Fin n} (hm : Master cfg s)
    (hst : step cfg s (.errFinish g) = some s2) : Master cfg s2 := by
  obtain ⟨hok, hlate, hown, hmiss⟩ := hm
  simp only [step] at hst
  split at hst
  next hcond =>
    obtain ⟨hes, hrest⟩ := hcond
    injection hst with hst; subst hst
    refine ⟨fun i => ?_, fun i hl => ?_, fun j2 hj2 => ?_, fun i hp hf => ?_⟩
    · by_cases hig : i = g
      · subst hig
        rw [setH_hs_self]
        exact okH_errFin (hok i) hes
      · rw [setH_hs_ne hig]; exact hok i
    · rw [setH_activeCmd]
      by_cases hig : i = g
      · subst hig
        rw [setH_hs_self] at hl
        exact hlate i hl
      · rw [setH_hs_ne hig] at hl
        exact hlate i hl
    · rw [setH_activeCmd] at hj2
      by_cases hjg : j2 = g
      · subst hjg
        rw [setH_hs_self]
        exact hown j2 hj2
      · rw [setH_hs_ne hjg]
        exact hown j2 hj2
    · obtain ⟨hset, hsl, hmx⟩ := hmiss i hp hf
      rw [setH_activeCmd, setH_transcodeMutex]
      by_cases hig : i = g
      · subst hig
        refine ⟨?_, hsl, hmx⟩
        rw [setH_hs_self]
        exact hset
      · refine ⟨?_, hsl, hmx⟩
        rw [setH_hs_ne hig]
        exact hset
  next hcond => exact Option.noConfusion hst

theorem master_procExit {n : Nat} {cfg : Fin n → HandlerCfg} {s s2 : Sys n}
    {g : Fin n} (hm : Master cfg s)
    (hst : step cfg s (.procExit g) = some s2) : Master cfg s2 := by
  obtain ⟨hok, hlate, hown, hmiss⟩ := hm
  simp only [step] at hst
  split at hst
  next hpr =>
    injection hst with hst; subst hst
    refine ⟨fun i => ?_, fun i hl => ?_, fun j2 hj2 => ?_, fun i hp hf => ?_⟩
    · by_cases hig : i = g
      · subst hig
        rw [setH_hs_self]
        exact okH_procExit (hok i) hpr
      · rw [setH_hs_ne hig]; exact hok i
    · rw [setH_activeCmd]
      by_cases hig : i = g
      · subst hig
        rw [setH_hs_self] at hl
        exact hlate i hl
      · rw [setH_hs_ne hig] at hl
        exact hlate i hl
    · rw [setH_activeCmd] at hj2
      by_cases hjg : j2 = g
      · subst hjg
        rw [setH_hs_self]
        exact hown j2 hj2
      · rw [setH_hs_ne hjg]
        exact hown j2 hj2
    · obtain ⟨hset, hsl, hmx⟩ := hmiss i hp hf
      rw [setH_activeCmd, setH_transcodeMutex]
      by_cases hig : i = g
      · subst hig
        refine ⟨?_, hsl, hmx⟩
        rw [setH_hs_self]
        exact hset
      · refine ⟨?_, hsl, hmx⟩
        rw [setH_hs_ne hig]
        exact hset
  next hpr => exact Option.noConfusion hst

theorem master_stepD {n : Nat} (cfg : Fin n → HandlerCfg) (s : Sys n)
    (a : Act n) (hm : Master cfg s) : Master cfg (stepD cfg s a) := by
  unfold stepD
  cases hst : step cfg s a with
  | none => exact hm
  | some s2 =>
    cases a with
    | go g => exact master_go hm hst
    | raceRecv g => exact master_raceRecv hm hst
    | raceCancel g => exact master_raceCancel hm hst
    | copyFinish g => exact master_copyFinish hm hst
    | errFinish g => exact master_errFinish hm hst
    | procExit g => exact master_procExit hm hst

theorem master_run {n : Nat} (cfg : Fin n → HandlerCfg) (acts : List (Act n)) :
    Master cfg (runD cfg (sysInit n) acts) :=
  runD_inv cfg (Master cfg) (fun s a hm => master_stepD cfg s a hm) acts
    (sysInit n) (master_init n cfg)

/-- Claim C5: in every execution, a handler that has completed the
streaming path (returned with no error response) has waited on its
process (reaped it) and the slot no longer refers to its command; and
the conditional clear at main.go 696-698 leaves the slot untouched when
it no longer refers to this handler, while the handler still proceeds
to its Wait. -/
theorem claim5_release {n : Nat} (cfg : Fin n → HandlerCfg)
    (acts : List (Act n)) (h : Fin n)
    (hdone : ((runD cfg (sysInit n) acts).hs h).pc = .pcDone)
    (hresp : ((runD cfg (sysInit n) acts).hs h).resp = none) :
    (((runD cfg (sysInit n) acts).hs h).reaped = true ∧
      (runD cfg (sysInit n) acts).activeCmd ≠ some h) ∧
    (∀ s : Sys n, (s.hs h).pc = .pcClear → s.activeCmd ≠ some h →
      step cfg s (.go h) = some (setH s h { s.hs h with pc := .pcUnlockC })) := by
  have hm := master_run cfg acts
  refine ⟨⟨(hm.ok h).reapedAtEnd hdone hresp,
    hm.late h (Or.inr (Or.inr ⟨hdone, hresp⟩))⟩, ?_⟩
  intro s hpcc hne
  simp only [step, hpcc]
  rw [if_neg hne]

theorem claim5_release_witness :
    ((runD cfgSolo (sysInit 1) traceSolo).hs 0).reaped = true ∧
    (runD cfgSolo (sysInit 1) traceSolo).activeCmd ≠ some 0 :=
  (claim5_release cfgSolo traceSolo 0 (by decide) (by decide)).1

/-- Claim C8 as amended: a non-zero exit status is logged only when the
request context has not been cancelled (main.go 704 suppresses the log
after a client disconnect, so the exit failure is not always logged);
HTTP error responses are produced only on the pre-start failure paths,
before any bytes were written and before any process existed, and a
non-zero natural exit with an uncancelled context is always logged. -/
theorem claim8_amended {n : Nat} (cfg : Fin n → HandlerCfg)
    (acts : List (Act n)) (h : Fin n) :
    ((cfg h).ctxCancelled = true →
      ((runD cfg (sysInit n) acts).hs h).logged = false) ∧
    (∀ v, ((runD cfg (sysInit n) acts).hs h).resp = some v →
      ((runD cfg (sysInit n) acts).hs h).bytes = false ∧
      ((runD cfg (sysInit n) acts).hs h).proc = .notStarted) ∧
    (((runD cfg (sysInit n) acts).hs h).pc = .pcDone →
      ((runD cfg (sysInit n) acts).hs h).resp = none →
      (cfg h).exitNonzero = true → (cfg h).ctxCancelled = false →
      ((runD cfg (sysInit n) acts).hs h).logged = true) := by
  have hm := master_run cfg acts
  refine ⟨(hm.ok h).noLogWhenCancelled, fun v hv => ?_, (hm.ok h).logWhenFailed⟩
  obtain ⟨hb, hpr, _, _⟩ := (hm.ok h).errImpliesFresh v hv
  exact ⟨hb, hpr⟩

theorem claim8_amended_witness :
    ((runD cfgExitCancel (sysInit 1) traceExitCancel).hs 0).logged = false :=
  (claim8_amended cfgExitCancel traceExitCancel 0).1 rfl

/-- Claim C9: a stream request whose os.Stat check fails never owns the
slot or the mutex, never starts a process, never reaches the
kill-and-replace section, and if it has returned it returned 404; so a
request for a missing file never preempts a running conversion. -/
theorem claim9_missing_file {n : Nat} (cfg : Fin n → HandlerCfg)
    (acts : List (Act n)) (h : Fin n)
    (hp : (cfg h).pathOk = true) (hf : (cfg h).fileExists = false) :
    (runD cfg (sysInit n) acts).activeCmd ≠ some h ∧
    (runD cfg (sysInit n) acts).transcodeMutex ≠ some h ∧
    ((runD cfg (sysInit n) acts).hs h).proc = .notStarted ∧
    ((runD cfg (sysInit n) acts).hs h).pc ≠ .pcKill ∧
    (((runD cfg (sysInit n) acts).hs h).pc = .pcDone →
      ((runD cfg (sysInit n) acts).hs h).resp = some 404) := by
  have hm := master_run cfg acts
  obtain ⟨hset, hsl, hmx⟩ := hm.missing h hp hf
  refine ⟨hsl, hmx, ?_, ?_, ?_⟩
  · rcases hset with h1 | h1 | ⟨h1, h2⟩
    · exact ((hm.ok h).freshBeforeStart (by rw [h1]; decide)).1
    · exact ((hm.ok h).freshBeforeStart (by rw [h1]; decide)).1
    · exact ((hm.ok h).errImpliesFresh 404 h2).2.1
  · rcases hset with h1 | h1 | ⟨h1, h2⟩ <;> rw [h1] <;> decide
  · intro hd
    rcases hset with h1 | h1 | ⟨h1, h2⟩
    · rw [h1] at hd; exact absurd hd (by decide)
    · rw [h1] at hd; exact absurd hd (by decide)
    · exact h2

theorem claim9_missing_file_witness :
    ((runD cfgMissPair (sysInit 2) traceMissPair).activeCmd ≠ some 0 ∧
      (runD cfgMissPair (sysInit 2) traceMissPair).transcodeMutex ≠ some 0 ∧
      ((runD cfgMissPair (sysInit 2) traceMissPair).hs 0).proc = .notStarted ∧
      ((runD cfgMissPair (sysInit 2) traceMissPair).hs 0).pc ≠ .pcKill ∧
      (((runD cfgMissPair (sysInit 2) traceMissPair).hs 0).pc = .pcDone →
        ((runD cfgMissPair (sysInit 2) traceMissPair).hs 0).resp = some 404)) ∧
    ((runD cfgMissPair (sysInit 2) traceMissPair).hs 1).proc = .running ∧
    (runD cfgMissPair (sysInit 2) traceMissPair).activeCmd = some 1 :=
  ⟨claim9_missing_file cfgMissPair traceMissPair 0 (by decide) (by decide),
   by decide, by decide⟩

theorem c2inv_step (cfg : Fin 1 → HandlerCfg) (hp : (cfg 0).pathOk = true)
    (hfe : (cfg 0).fileExists = true)
    (hfail : (cfg 0).stderrPipeOk = false ∨ (cfg 0).stdoutPipeOk = false ∨
      (cfg 0).startOk = false)
    (s : Sys 1) (a : Act 1) (hi : C2Inv cfg s) : C2Inv cfg (stepD cfg s a) := by
  obtain ⟨hexc, hstdo, hstart, hown0, hresp0⟩ := hi
  cases a with
  | go h =>
    have h0 : h = 0 := Subsingleton.elim h 0
    subst h0
    unfold stepD
    cases hpc : (s.hs 0).pc
    case pcPath =>
      simp only [step, hpc, hp, if_true, Option.getD_some]
      refine ⟨?_, ?_, ?_, ?_, ?_⟩
      · rw [setH_hs_self]
        refine ⟨?_, ?_, ?_, ?_, ?_⟩ <;> intro hx <;> simp at hx
      · intro hx
        rw [setH_hs_self] at hx
        simp at hx
      · intro hx
        rw [setH_hs_self] at hx
        simp at hx
      · intro hcc
        rw [setH_hs_self] at hcc
        rcases hcc with h1 | h1 | h1 | h1 | h1 <;> simp at h1
      · intro hcc
        rw [setH_hs_self] at hcc
        simp at hcc
    case pcStat =>
      simp only [step, hpc, hfe, if_true, Option.getD_some]
      refine ⟨?_, ?_, ?_, ?_, ?_⟩
      · rw [setH_hs_self]
        refine ⟨?_, ?_, ?_, ?_, ?_⟩ <;> intro hx <;> simp at hx
      · intro hx
        rw [setH_hs_self] at hx
        simp at hx
      · intro hx
        rw [setH_hs_self] at hx
        simp at hx
      · intro hcc
        rw [setH_hs_self] at hcc
        rcases hcc with h1 | h1 | h1 | h1 | h1 <;> simp at h1
      · intro hcc
        rw [setH_hs_self] at hcc
        simp at hcc
    case pcLock1 =>
      simp only [step, hpc]
      cases hm : s.transcodeMutex with
      | none =>
        simp only [Option.getD_some]
        refine ⟨?_, ?_, ?_, ?_, ?_⟩
        · rw [setMux_hs, setH_hs_self]
          refine ⟨?_, ?_, ?_, ?_, ?_⟩ <;> intro hx <;> simp at hx
        · intro hx
          rw [setMux_hs, setH_hs_self] at hx
          simp at hx
        · intro hx
          rw [setMux_hs, setH_hs_self] at hx
          simp at hx
        · intro hcc
          rw [setMux_hs, setH_hs_self] at hcc
          rcases hcc with h1 | h1 | h1 | h1 | h1 <;> simp at h1
        · intro hcc
          rw [setMux_hs, setH_hs_self] at hcc
          simp at hcc
      | some m =>
        simp only [Option.getD_none]
        exact ⟨hexc, hstdo, hstart, hown0, hresp0⟩
    case pcKill =>
      cases hsl : s.activeCmd with
      | none =>
        simp only [step, hpc, hsl, Option.getD_some]
        refine ⟨?_, ?_, ?_, ?_, ?_⟩
        · rw [setH_hs_self]
          refine ⟨?_, ?_, ?_, ?_, ?_⟩ <;> intro hx <;> simp at hx
        · intro hx
          rw [setH_hs_self] at hx
          simp at hx
        · intro hx
          rw [setH_hs_self] at hx
          simp at hx
        · intro hcc
          rw [setH_hs_self] at hcc
          rcases hcc with h1 | h1 | h1 | h1 | h1 <;> simp at h1
        · intro hcc
          rw [setH_hs_self] at hcc
          simp at hcc
      | some j =>
        have hj0 : j = 0 := Subsingleton.elim j 0
        subst hj0
        by_cases hns : (s.hs 0).proc = .notStarted
        · simp only [step, hpc, hsl, if_pos hns, Option.getD_some]
          refine ⟨?_, ?_, ?_, ?_, ?_⟩
          · rw [setH_hs_self]
            refine ⟨?_, ?_, ?_, ?_, ?_⟩ <;> intro hx <;> simp at hx
          · intro hx
            rw [setH_hs_self] at hx
            simp at hx
          · intro hx
            rw [setH_hs_self] at hx
            simp at hx
          · intro hcc
            rw [setH_hs_self] at hcc
            rcases hcc with h1 | h1 | h1 | h1 | h1 <;> simp at h1
          · intro hcc
            rw [setH_hs_self] at hcc
            simp at hcc
        · simp only [step, hpc, hsl, if_neg hns, Option.getD_some]
          refine ⟨?_, ?_, ?_, ?_, ?_⟩
          · rw [setSlot_hs, setH_hs_self]
            refine ⟨?_, ?_, ?_, ?_, ?_⟩ <;> intro hx <;> simp at hx
          · intro hx
            rw [setSlot_hs, setH_hs_self] at hx
            simp at hx
          · intro hx
            rw [setSlot_hs, setH_hs_self] at hx
            simp at hx
          · intro hcc
            rw [setSlot_hs, setH_hs_self] at hcc
            rcases hcc with h1 | h1 | h1 | h1 | h1 <;> simp at h1
          · intro hcc
            rw [setSlot_hs, setH_hs_self] at hcc
            simp at hcc
    case pcUnlock1 =>
      simp only [step, hpc, Option.getD_some]
      refine ⟨?_, ?_, ?_, ?_, ?_⟩
      · rw [setMux_hs, setH_hs_self]
        refine ⟨?_, ?_, ?_, ?_, ?_⟩ <;> intro hx <;> simp at hx
      · intro hx
        rw [setMux_hs, setH_hs_self] at hx
        simp at hx
      · intro hx
        rw [setMux_hs, setH_hs_self] at hx
        simp at hx
      · intro hcc
        rw [setMux_hs, setH_hs_self] at hcc
        rcases hcc with h1 | h1 | h1 | h1 | h1 <;> simp at h1
      · intro hcc
        rw [setMux_hs, setH_hs_self] at hcc
        simp at hcc
    case pcMk =>
      simp only [step, hpc, Option.getD_some]
      refine ⟨?_, ?_, ?_, ?_, ?_⟩
      · rw [setH_hs_self]
        refine ⟨?_, ?_, ?_, ?_, ?_⟩ <;> intro hx <;> simp at hx
      · intro hx
        rw [setH_hs_self] at hx
        simp at hx
      · intro hx
        rw [setH_hs_self] at hx
        simp at hx
      · intro hcc
        rw [setH_hs_self] at hcc
        rcases hcc with h1 | h1 | h1 | h1 | h1 <;> simp at h1
      · intro hcc
        rw [setH_hs_self] at hcc
        simp at hcc
    case pcLock2 =>
      simp only [step, hpc]
      cases hm : s.transcodeMutex with
      | none =>
        simp only [Option.getD_some]
        refine ⟨?_, ?_, ?_, ?_, ?_⟩
        · rw [setMux_hs, setH_hs_self]
          refine ⟨?_, ?_, ?_, ?_, ?_⟩ <;> intro hx <;> simp at hx
        · intro hx
          rw [setMux_hs, setH_hs_self] at hx
          simp at hx
        · intro hx
          rw [setMux_hs, setH_hs_self] at hx
          simp at hx
        · intro hcc
          rw [setMux_hs, setH_hs_self] at hcc
          rcases hcc with h1 | h1 | h1 | h1 | h1 <;> simp at h1
        · intro hcc
          rw [setMux_hs, setH_hs_self] at hcc
          simp at hcc
      | some m =>
        simp only [Option.getD_none]
        exact ⟨hexc, hstdo, hstart, hown0, hresp0⟩
    case pcRecord =>
      simp only [step, hpc, Option.getD_some]
      refine ⟨?_, ?_, ?_, ?_, ?_⟩
      · rw [setSlot_hs, setH_hs_self]
        refine ⟨?_, ?_, ?_, ?_, ?_⟩ <;> intro hx <;> simp at hx
      · intro hx
        rw [setSlot_hs, setH_hs_self] at hx
        simp at hx
      · intro hx
        rw [setSlot_hs, setH_hs_self] at hx
        simp at hx
      · intro hcc
        rw [setSlot_activeCmd]
      · intro hcc
        rw [setSlot_hs, setH_hs_self] at hcc
        simp at hcc
    case pcUnlock2 =>
      have hslot := hown0 (Or.inl hpc)
      simp only [step, hpc, Option.getD_some]
      refine ⟨?_, ?_, ?_, ?_, ?_⟩
      · rw [setMux_hs, setH_hs_self]
        refine ⟨?_, ?_, ?_, ?_, ?_⟩ <;> intro hx <;> simp at hx
      · intro hx
        rw [setMux_hs, setH_hs_self] at hx
        simp at hx
      · intro hx
        rw [setMux_hs, setH_hs_self] at hx
        simp at hx
      · intro hcc
        rw [setMux_activeCmd, setH_activeCmd]
        exact hslot
      · intro hcc
        rw [setMux_hs, setH_hs_self] at hcc
        simp at hcc
    case pcStderr =>
      have hslot := hown0 (Or.inr (Or.inl hpc))
      cases hc : (cfg 0).stderrPipeOk with
      | true =>
        simp only [step, hpc, hc, if_true, Option.getD_some]
        refine ⟨?_, ?_, ?_, ?_, ?_⟩
        · rw [setH_hs_self]
          refine ⟨?_, ?_, ?_, ?_, ?_⟩ <;> intro hx <;> simp at hx
        · intro hx
          exact hc
        · intro hx
          rw [setH_hs_self] at hx
          simp at hx
        · intro hcc
          rw [setH_activeCmd]
          exact hslot
        · intro hcc
          rw [setH_hs_self] at hcc
          simp at hcc
      | false =>
        simp only [step, hpc, hc, Bool.false_eq_true, if_false,
          Option.getD_some]
        refine ⟨?_, ?_, ?_, ?_, ?_⟩
        · rw [setH_hs_self]
          refine ⟨?_, ?_, ?_, ?_, ?_⟩ <;> intro hx <;> simp at hx
        · intro hx
          rw [setH_hs_self] at hx
          simp at hx
        · intro hx
          rw [setH_hs_self] at hx
          simp at hx
        · intro hcc
          rw [setH_activeCmd]
          exact hslot
        · intro hcc
          rw [setH_hs_self]
    case pcStdout =>
      have hse := hstdo hpc
      have hslot := hown0 (Or.inr (Or.inr (Or.inl hpc)))
      cases hc : (cfg 0).stdoutPipeOk with
      | true =>
        simp only [step, hpc, hc, if_true, Option.getD_some]
        refine ⟨?_, ?_, ?_, ?_, ?_⟩
        · rw [setH_hs_self]
          refine ⟨?_, ?_, ?_, ?_, ?_⟩ <;> intro hx <;> simp at hx
        · intro hx
          rw [setH_hs_self] at hx
          simp at hx
        · intro hx
          exact ⟨hse, hc⟩
        · intro hcc
          rw [setH_activeCmd]
          exact hslot
        · intro hcc
          rw [setH_hs_self] at hcc
          simp at hcc
      | false =>
        simp only [step, hpc, hc, Bool.false_eq_true, if_false,
          Option.getD_some]
        refine ⟨?_, ?_, ?_, ?_, ?_⟩
        · rw [setH_hs_self]
          refine ⟨?_, ?_, ?_, ?_, ?_⟩ <;> intro hx <;> simp at hx
        · intro hx
          rw [setH_hs_self] at hx
          simp at hx
        · intro hx
          rw [setH_hs_self] at hx
          simp at hx
        · intro hcc
          rw [setH_activeCmd]
          exact hslot
        · intro hcc
          rw [setH_hs_self]
    case pcStart =>
      obtain ⟨hse, hso⟩ := hstart hpc
      have hslot := hown0 (Or.inr (Or.inr (Or.inr (Or.inl hpc))))
      have hsf : (cfg 0).startOk = false := by
        rcases hfail with hx | hx | hx
        · rw [hse] at hx
          exact absurd hx (by decide)
        · rw [hso] at hx
          exact absurd hx (by decide)
        · exact hx
      simp only [step, hpc, hsf, Bool.false_eq_true, if_false,
        Option.getD_some]
      refine ⟨?_, ?_, ?_, ?_, ?_⟩
      · rw [setH_hs_self]
        refine ⟨?_, ?_, ?_, ?_, ?_⟩ <;> intro hx <;> simp at hx
      · intro hx
        rw [setH_hs_self] at hx
        simp at hx
      · intro hx
        rw [setH_hs_self] at hx
        simp at hx
      · intro hcc
        rw [setH_activeCmd]
        exact hslot
      · intro hcc
        rw [setH_hs_self]
    case pcRace => exact absurd hpc hexc.1
    case pcLockC => exact absurd hpc hexc.2.1
    case pcClear => exact absurd hpc hexc.2.2.1
    case pcUnlockC => exact absurd hpc hexc.2.2.2.1
    case pcWait => exact absurd hpc hexc.2.2.2.2
    case pcDone =>
      simp only [step, hpc, Option.getD_none]
      exact ⟨hexc, hstdo, hstart, hown0, hresp0⟩
  | raceRecv h =>
    have h0 : h = 0 := Subsingleton.elim h 0
    subst h0
    unfold stepD
    have hnc : ¬((s.hs 0).pc = .pcRace ∧ (s.hs 0).copyT = .cSend) :=
      fun hcc => absurd hcc.1 hexc.1
    simp only [step, if_neg hnc, Option.getD_none]
    exact ⟨hexc, hstdo, hstart, hown0, hresp0⟩
  | raceCancel h =>
    have h0 : h = 0 := Subsingleton.elim h 0
    subst h0
    unfold stepD
    have hnc : ¬((s.hs 0).pc = .pcRace ∧ (cfg 0).ctxCancelled = true) :=
      fun hcc => absurd hcc.1 hexc.1
    simp only [step, if_neg hnc, Option.getD_none]
    exact ⟨hexc, hstdo, hstart, hown0, hresp0⟩
  | copyFinish h =>
    have h0 : h = 0 := Subsingleton.elim h 0
    subst h0
    unfold stepD
    simp only [step]
    split
    next hcc =>
      simp only [Option.getD_some]
      refine ⟨?_, ?_, ?_, ?_, ?_⟩
      · rw [setH_hs_self]
        exact hexc
      · intro hdj
        rw [setH_hs_self] at hdj
        exact hstdo hdj
      · intro hdj
        rw [setH_hs_self] at hdj
        exact hstart hdj
      · intro hdj
        rw [setH_hs_self] at hdj
        rw [setH_activeCmd]
        exact hown0 hdj
      · intro hdj
        rw [setH_hs_self] at hdj
        rw [setH_hs_self]
        exact hresp0 hdj
    next hcc =>
      simp only [Option.getD_none]
      exact ⟨hexc, hstdo, hstart, hown0, hresp0⟩
  | errFinish h =>
    have h0 : h = 0 := Subsingleton.elim h 0
    subst h0
    unfold stepD
    simp only [step]
    split
    next hcc =>
      simp only [Option.getD_some]
      refine ⟨?_, ?_, ?_, ?_, ?_⟩
      · rw [setH_hs_self]
        exact hexc
      · intro hdj
        rw [setH_hs_self] at hdj
        exact hstdo hdj
      · intro hdj
        rw [setH_hs_self] at hdj
        exact hstart hdj
      · intro hdj
        rw [setH_hs_self] at hdj
        rw [setH_activeCmd]
        exact hown0 hdj
      · intro hdj
        rw [setH_hs_self] at hdj
        rw [setH_hs_self]
        exact hresp0 hdj
    next hcc =>
      simp only [Option.getD_none]
      exact ⟨hexc, hstdo, hstart, hown0, hresp0⟩
  | procExit h =>
    have h0 : h = 0 := Subsingleton.elim h 0
    subst h0
    unfold stepD
    simp only [step]
    split
    next hcc =>
      simp only [Option.getD_some]
      refine ⟨?_, ?_, ?_, ?_, ?_⟩
      · rw [setH_hs_self]
        exact hexc
      · intro hdj
        rw [setH_hs_self] at hdj
        exact hstdo hdj
      · intro hdj
        rw [setH_hs_self] at hdj
        exact hstart hdj
      · intro hdj
        rw [setH_hs_self] at hdj
        rw [setH_activeCmd]
        exact hown0 hdj
      · intro hdj
        rw [setH_hs_self] at hdj
        rw [setH_hs_self]
        exact hresp0 hdj
    next hcc =>
      simp only [Option.getD_none]
      exact ⟨hexc, hstdo, hstart, hown0, hresp0⟩

/-- Claim C2 as amended: when attaching either pipe or starting the
process fails, the handler returns a 500 server error before any bytes
are sent and without ever starting the process, but the
just-constructed command remains recorded in the active-conversion
slot when the handler returns (the slot is not left empty). -/
theorem claim2_amended (cfg : Fin 1 → HandlerCfg) (acts : List (Act 1))
    (hp : (cfg 0).pathOk = true) (hfe : (cfg 0).fileExists = true)
    (hfail : (cfg 0).stderrPipeOk = false ∨ (cfg 0).stdoutPipeOk = false ∨
      (cfg 0).startOk = false)
    (hdone : ((runD cfg (sysInit 1) acts).hs 0).pc = .pcDone) :
    ((runD cfg (sysInit 1) acts).hs 0).resp = some 500 ∧
    ((runD cfg (sysInit 1) acts).hs 0).bytes = false ∧
    ((runD cfg (sysInit 1) acts).hs 0).proc = .notStarted ∧
    (runD cfg (sysInit 1) acts).activeCmd = some 0 := by
  have hinit : C2Inv cfg (sysInit 1) := by
    refine ⟨⟨?_, ?_, ?_, ?_, ?_⟩, ?_, ?_, ?_, ?_⟩ <;>
      simp [sysInit, hInit]
  have hi : C2Inv cfg (runD cfg (sysInit 1) acts) :=
    runD_inv cfg (C2Inv cfg) (c2inv_step cfg hp hfe hfail) acts (sysInit 1)
      hinit
  have hm := master_run cfg acts
  have hresp : ((runD cfg (sysInit 1) acts).hs 0).resp = some 500 :=
    hi.2.2.2.2 hdone
  obtain ⟨hb, hpr, _, _⟩ := (hm.ok 0).errImpliesFresh 500 hresp
  exact ⟨hresp, hb, hpr,
    hi.2.2.2.1 (Or.inr (Or.inr (Or.inr (Or.inr hdone))))⟩

/-- Witness for the amended claim C2 at two concrete failing requests:
one whose stderr pipe attachment fails and one whose cmd.Start fails. -/
theorem claim2_amended_witness :
    (((runD cfgPipeFail (sysInit 1) tracePipeFail).hs 0).resp = some 500 ∧
      ((runD cfgPipeFail (sysInit 1) tracePipeFail).hs 0).bytes = false ∧
      ((runD cfgPipeFail (sysInit 1) tracePipeFail).hs 0).proc =
        .notStarted ∧
      (runD cfgPipeFail (sysInit 1) tracePipeFail).activeCmd = some 0) ∧
    (((runD cfgStartFail (sysInit 1) traceStartFail).hs 0).resp = some 500 ∧
      ((runD cfgStartFail (sysInit 1) traceStartFail).hs 0).bytes = false ∧
      ((runD cfgStartFail (sysInit 1) traceStartFail).hs 0).proc =
        .notStarted ∧
      (runD cfgStartFail (sysInit 1) traceStartFail).activeCmd = some 0) :=
  ⟨claim2_amended cfgPipeFail tracePipeFail (by decide) (by decide)
      (Or.inl (by decide)) (by decide),
   claim2_amended cfgStartFail traceStartFail (by decide) (by decide)
      (Or.inr (Or.inr (by decide))) (by decide)⟩

theorem leak_step (cfg : Fin 1 → HandlerCfg) (s : Sys 1) (a : Act 1)
    (hi : LeakInv s) : LeakInv (stepD cfg s a) := by
  obtain ⟨hpc, hcs, hef, hrp⟩ := hi
  cases a with
  | go h =>
    have h0 : h = 0 := Subsingleton.elim h 0
    subst h0
    unfold stepD
    simp only [step, hpc, Option.getD_none]
    exact ⟨hpc, hcs, hef, hrp⟩
  | raceRecv h =>
    have h0 : h = 0 := Subsingleton.elim h 0
    subst h0
    unfold stepD
    have hnc : ¬((s.hs 0).pc = .pcRace ∧ (s.hs 0).copyT = .cSend) := by
      intro hcc
      rw [hpc] at hcc
      exact absurd hcc.1 (by decide)
    simp only [step, if_neg hnc, Option.getD_none]
    exact ⟨hpc, hcs, hef, hrp⟩
  | raceCancel h =>
    have h0 : h = 0 := Subsingleton.elim h 0
    subst h0
    unfold stepD
    have hnc : ¬((s.hs 0).pc = .pcRace ∧ (cfg 0).ctxCancelled = true) := by
      intro hcc
      rw [hpc] at hcc
      exact absurd hcc.1 (by decide)
    simp only [step, if_neg hnc, Option.getD_none]
    exact ⟨hpc, hcs, hef, hrp⟩
  | copyFinish h =>
    have h0 : h = 0 := Subsingleton.elim h 0
    subst h0
    unfold stepD
    have hnc : ¬((s.hs 0).copyT = .cRun ∧
        ((s.hs 0).proc = .exited ∨ (cfg 0).ctxCancelled = true)) := by
      intro hcc
      rw [hcs] at hcc
      exact absurd hcc.1 (by decide)
    simp only [step, if_neg hnc, Option.getD_none]
    exact ⟨hpc, hcs, hef, hrp⟩
  | errFinish h =>
    have h0 : h = 0 := Subsingleton.elim h 0
    subst h0
    unfold stepD
    have hnc : ¬((s.hs 0).errT = .eRun ∧ (s.hs 0).proc = .exited) := by
      intro hcc
      rw [hef] at hcc
      exact absurd hcc.1 (by decide)
    simp only [step, if_neg hnc, Option.getD_none]
    exact ⟨hpc, hcs, hef, hrp⟩
  | procExit h =>
    have h0 : h = 0 := Subsingleton.elim h 0
    subst h0
    unfold stepD
    by_cases hpr : (s.hs 0).proc = .running
    · simp only [step, if_pos hpr, Option.getD_some]
      refine ⟨?_, ?_, ?_, ?_⟩ <;> rw [setH_hs_self]
      · exact hpc
      · exact hcs
      · exact hef
      · exact hrp
    · simp only [step, if_neg hpr, Option.getD_none]
      exact ⟨hpc, hcs, hef, hrp⟩

/-- Claim C7 is violated by the code: after a client-disconnect kill,
the handler returns through the cancellation branch of the select and
never receives from the unbuffered done channel, so the copy goroutine
stays blocked forever on its send (main.go 679) in every continuation
of the execution; the stderr goroutine does terminate, and the process
is reaped. -/
theorem claim7_copy_task_leak (acts : List (Act 1)) :
    ((runD cfgLeak (sysInit 1) (traceLeak ++ acts)).hs 0).pc = .pcDone ∧
    ((runD cfgLeak (sysInit 1) (traceLeak ++ acts)).hs 0).copyT = .cSend ∧
    ((runD cfgLeak (sysInit 1) (traceLeak ++ acts)).hs 0).errT = .eFin ∧
    ((runD cfgLeak (sysInit 1) (traceLeak ++ acts)).hs 0).reaped = true := by
  rw [runD_append]
  have hbase : LeakInv (runD cfgLeak (sysInit 1) traceLeak) :=
    ⟨by decide, by decide, by decide, by decide⟩
  exact runD_inv cfgLeak LeakInv (leak_step cfgLeak) acts
    (runD cfgLeak (sysInit 1) traceLeak) hbase

theorem claim7_copy_task_leak_witness :
    ((runD cfgLeak (sysInit 1) (traceLeak ++ [])).hs 0).copyT = .cSend ∧
    ((runD cfgLeak (sysInit 1) (traceLeak ++ [])).hs 0).errT = .eFin :=
  ⟨(claim7_copy_task_leak []).2.1, (claim7_copy_task_leak []).2.2.1⟩

/-- Claim C6: at the select race, when the request context has been
cancelled the cancellation branch is enabled regardless of the state of
the copy goroutine; taking it kills the running process at once and
moves the handler to cleanup, leaving the copy goroutine untouched (the
handler does not wait for the copy to finish). -/
theorem claim6_cancel_race {n : Nat} (cfg : Fin n → HandlerCfg) (s : Sys n)
    (h : Fin n) (hpc : (s.hs h).pc = .pcRace)
    (hcanc : (cfg h).ctxCancelled = true) (hpr : (s.hs h).proc = .running) :
    step cfg s (.raceCancel h) =
      some (setH s h
        { s.hs h with pc := .pcLockC, proc := .exited, killed := true }) ∧
    ((setH s h
        { s.hs h with pc := .pcLockC, proc := .exited, killed := true }).hs
      h).copyT = (s.hs h).copyT ∧
    ((setH s h
        { s.hs h with pc := .pcLockC, proc := .exited, killed := true }).hs
      h).pc = .pcLockC := by
  refine ⟨?_, ?_, ?_⟩
  · simp only [step, if_pos (And.intro hpc hcanc), hpr]
  · rw [setH_hs_self]
  · rw [setH_hs_self]

theorem claim6_cancel_race_witness :
    step cfgLeak raceState (.raceCancel 0) =
      some (setH raceState 0
        { raceState.hs 0 with pc := .pcLockC, proc := .exited, killed := true }) ∧
    ((setH raceState 0
        { raceState.hs 0 with pc := .pcLockC, proc := .exited, killed := true }).hs 0).copyT = (raceState.hs 0).copyT ∧
    ((setH raceState 0
        { raceState.hs 0 with pc := .pcLockC, proc := .exited, killed := true }).hs 0).pc = .pcLockC :=
  claim6_cancel_race cfgLeak raceState 0 rfl rfl rfl

/-- Claim C10: the stream endpoint performs no media classification:
notes.txt classifies as Unsupported in the browse listing for every
probe outcome, yet a stream request for that existing file preempts and
reaps the running conversion of another request and starts its own
conversion process, which becomes the recorded active command. -/
theorem claim10_stream_no_classification :
    (∀ isDir probeOut, classify "notes.txt" isDir probeOut = .Unsupported) ∧
    (cfgTxtPair 0).fname = "notes.txt" ∧
    ((runD cfgTxtPair (sysInit 2) traceTxtPair).hs 0).proc = .running ∧
    ((runD cfgTxtPair (sysInit 2) traceTxtPair).hs 1).killed = true ∧
    ((runD cfgTxtPair (sysInit 2) traceTxtPair).hs 1).reaped = true ∧
    (runD cfgTxtPair (sysInit 2) traceTxtPair).activeCmd = some 0 := by
  refine ⟨fun isDir probeOut => rfl, by decide, by decide, by decide,
    by decide, by decide⟩

theorem claim10_stream_no_classification_witness :
    classify "notes.txt" false none = .Unsupported :=
  claim10_stream_no_classification.1 false none
